import Mathlib

/-!
Shallow embedding of the rollkit block executor (package `state`):
block construction, validation, execution with optional fraud-proof
intermediate-state-root (ISR) capture, state update and commit.

External collaborators (the ABCI application connection, the mempool, the
codec/conversion layer, the cometbft validator-set library, the event bus
and the fraud-proof gossip service) are modelled as oracle functions
collected in `Env`; the executor's own control flow is translated from the
source file of the `state` package.  Side effects on the application and
mempool are made observable through explicit traces (`GossipSt`,
`CommitOp` lists).  Block heights and times are modelled as `Nat`
(the block base header carries unsigned values in the repository's data
model).
-/

namespace Rollkit

/-- Byte strings (Go `[]byte`). -/
abbrev Bytes := List Nat

/-- A transaction is an opaque byte string. -/
abbrev Tx := Bytes

/-- Opaque event token (the executor only moves events around). -/
abbrev Event := Nat

/-- Opaque fraud-proof blob returned by the application. -/
abbrev FraudProof := Nat

/-- Error values produced by the executor or returned by its collaborators. -/
inductive Err where
  | fraudProofGenerated
  | addingValidatorToBased
  | invalidIsrLength (got expected : Nat)
  | txResultsLengthMismatch (expected got : Nat)
  | blockVersionMismatch
  | initialHeightMismatch
  | heightMismatch
  | appHashMismatch
  | lastResultsHashMismatch
  | aggregatorsHashMismatch
  | negativeVotingPower
  | unsupportedPubKeyType
  | valSetUpdateFailed (msg : String)
  | inValidatorUpdates (e : Err)
  | nilBeginBlockRequest
  | fraudProofGenerationFailed
  | broadcastFailed (e : Err)
  | panicked (msg : String)
  | external (msg : String)
deriving DecidableEq, Repr

/-- The message of `ErrEmptyValSetGenerated`; the source compares error
messages textually to recognise this case. -/
def ErrEmptyValSetGeneratedMsg : String :=
  "applying the validator changes would result in empty set"

structure Version where
  Block : Nat
  App : Nat
deriving DecidableEq, Repr

/-- The consensus version carried by the chain state (`state.Version.Consensus`). -/
structure StateVersion where
  Consensus : Version
deriving DecidableEq, Repr

structure BaseHeader where
  ChainID : String
  Height : Nat
  Time : Nat
deriving DecidableEq, Repr

structure Header where
  Version : Version
  BaseHeader : BaseHeader
  LastHeaderHash : Bytes
  LastCommitHash : Bytes
  DataHash : Bytes
  ConsensusHash : Bytes
  AppHash : Bytes
  LastResultsHash : Bytes
  AggregatorsHash : Bytes
  ProposerAddress : Bytes
deriving DecidableEq, Repr

/-- A commit carries an ordered sequence of raw signatures. -/
structure Commit where
  Signatures : List Bytes
deriving DecidableEq, Repr

structure SignedHeader where
  Header : Header
  Commit : Commit
deriving DecidableEq, Repr

/-- The ISR wrapper; `RawRootsList` is `none` for a Go nil slice and
`some l` for a non-nil (possibly empty) slice. -/
structure IntermediateStateRoots where
  RawRootsList : Option (List Bytes)
deriving DecidableEq, Repr

structure Data where
  Txs : List Tx
  IntermediateStateRoots : IntermediateStateRoots
deriving DecidableEq, Repr

structure Block where
  SignedHeader : SignedHeader
  Data : Data
deriving DecidableEq, Repr

structure Validator where
  Address : Bytes
  PubKeyType : String
  VotingPower : Int
deriving DecidableEq, Repr

structure ValidatorSet where
  Validators : List Validator
  Proposer : Option Validator
deriving DecidableEq, Repr

structure BlockParams where
  MaxBytes : Int
  MaxGas : Int
deriving DecidableEq, Repr

structure ValidatorParams where
  PubKeyTypes : List String
deriving DecidableEq, Repr

structure ConsensusParams where
  Block : BlockParams
  Validator : ValidatorParams
deriving DecidableEq, Repr

structure State where
  Version : StateVersion
  ChainID : String
  InitialHeight : Nat
  LastBlockHeight : Nat
  LastBlockID : Bytes
  LastBlockTime : Nat
  NextValidators : ValidatorSet
  Validators : ValidatorSet
  LastValidators : ValidatorSet
  LastHeightValidatorsChanged : Nat
  ConsensusParams : ConsensusParams
  LastHeightConsensusParamsChanged : Nat
  LastResultsHash : Bytes
  AppHash : Bytes
deriving DecidableEq, Repr

/-- The zero value `types.State{}` (nil pointers become empty sets,
nil slices become `[]`). -/
def State.zero : State :=
  { Version := ⟨⟨0, 0⟩⟩
    ChainID := ""
    InitialHeight := 0
    LastBlockHeight := 0
    LastBlockID := []
    LastBlockTime := 0
    NextValidators := ⟨[], none⟩
    Validators := ⟨[], none⟩
    LastValidators := ⟨[], none⟩
    LastHeightValidatorsChanged := 0
    ConsensusParams := ⟨⟨0, 0⟩, ⟨[]⟩⟩
    LastHeightConsensusParamsChanged := 0
    LastResultsHash := []
    AppHash := [] }

/-- A signature inside an ABCI-codec-converted commit. -/
structure CommitSig where
  BlockIDFlag : Nat
  ValidatorAddress : Bytes
  Timestamp : Nat
  Signature : Bytes
deriving DecidableEq, Repr

structure ABCICommit where
  Round : Nat
  Signatures : List CommitSig
deriving DecidableEq, Repr

structure ABCIHeader where
  ChainID : String
  Height : Nat
  Time : Nat
  AppHash : Bytes
  ValidatorsHash : Bytes
  ProposerAddress : Bytes
deriving DecidableEq, Repr

structure ABCIBlock where
  Txs : List Tx
  Height : Nat
  Time : Nat
  ProposerAddress : Bytes
  NextValidatorsHash : Bytes
deriving DecidableEq, Repr

structure CommitInfo where
  Round : Nat
  Votes : List (Validator × Nat)
deriving DecidableEq, Repr

structure RequestBeginBlock where
  Hash : Bytes
  Header : ABCIHeader
deriving DecidableEq, Repr

structure RequestDeliverTx where
  Tx : Tx
deriving DecidableEq, Repr

structure RequestEndBlock where
  Height : Nat
deriving DecidableEq, Repr

structure RequestGenerateFraudProof where
  BeginBlockRequest : RequestBeginBlock
  DeliverTxRequests : Option (List RequestDeliverTx)
  EndBlockRequest : Option RequestEndBlock
deriving DecidableEq, Repr

structure RequestFinalizeBlock where
  Hash : Bytes
  NextValidatorsHash : Bytes
  ProposerAddress : Bytes
  Height : Nat
  Time : Nat
  DecidedLastCommit : CommitInfo
  Txs : List Tx
deriving DecidableEq, Repr

structure ExecTxResult where
  Code : Nat
  Data : Bytes
deriving DecidableEq, Repr

structure ValidatorUpdate where
  PubKey : Bytes
  Power : Int
deriving DecidableEq, Repr

structure ResponseFinalizeBlock where
  TxResults : List ExecTxResult
  ValidatorUpdates : List ValidatorUpdate
  ConsensusParamUpdates : Option Nat
  Events : List Event
  AppHash : Bytes
deriving DecidableEq, Repr

structure ResponseBeginBlock where
  Events : List Event
deriving DecidableEq, Repr

structure ResponseEndBlock where
  ValidatorUpdates : List ValidatorUpdate
  ConsensusParamUpdates : Option Nat
  Events : List Event
deriving DecidableEq, Repr

/-- The legacy per-phase response bundle (`cmstate.LegacyABCIResponses`).
`DeliverTxs` entries are `Option` because the Go slice is allocated with
nil entries and only filled by the mempool response callback; no
`DeliverTx` responses arrive on the mempool connection during `execute`,
so they stay nil on every path modelled here. -/
structure LegacyABCIResponses where
  DeliverTxs : List (Option ExecTxResult)
  BeginBlock : ResponseBeginBlock
  EndBlock : ResponseEndBlock
deriving DecidableEq, Repr

/-- The executor's own configuration (`BlockExecutor` fields that are plain
data; the injected collaborators live in `Env`). -/
structure Executor where
  proposerAddress : Bytes
  namespaceID : Bytes
  chainID : String
  fraudProofsEnabled : Bool
deriving DecidableEq, Repr

/-- Oracles for every external collaborator.

Application calls that can fail return `Except Err`.  `getAppHash` is
indexed by the number of prior `GetAppHash` calls made by `execute`, so a
single `Env` value describes the whole sequence of app hashes the
application reports during one execution.

The codec functions (`toABCICommit`, hashes) and the validator-set
operations (`updateWithChangeSet`, `incrementProposerPriority`) belong to
repository or library packages outside the embedded source file; they are
kept fully abstract, which is sound because no claim depends on their
internal behaviour. -/
structure Env where
  getAppHash : Nat → Except Err Bytes
  finalizeBlock : RequestFinalizeBlock → Except Err ResponseFinalizeBlock
  appGenerateFraudProof : RequestGenerateFraudProof → Except Err (Option FraudProof)
  broadcast : FraudProof → Except Err Unit
  appCommit : Except Err Nat
  commitGetAppHash : Except Err Bytes
  flushAppConn : Except Err Unit
  mempoolUpdate : Nat → List Tx → List (Option ExecTxResult) → Int → Int → Except Err Unit
  reapMaxBytesMaxGas : Int → Int → List Tx
  publishEvents : LegacyABCIResponses → Block → State → Option Err
  validateBasicErr : Block → Option Err
  toABCIHeaderErr : Header → Option Err
  toABCIBlockErr : Block → Option Err
  toProtoErr : State → Option Err
  toABCICommit : Commit → Nat → Bytes → ABCICommit
  commitHash : ABCICommit → Bytes
  headerHash : Header → Bytes
  blockHash : Block → Bytes
  signedHeaderHash : SignedHeader → Bytes
  valSetHash : ValidatorSet → Bytes
  resultsHash : List (Option ExecTxResult) → Bytes
  updateWithChangeSet : ValidatorSet → List Validator → Except String ValidatorSet
  incrementProposerPriority : ValidatorSet → Nat → ValidatorSet
  pb2tmValidatorUpdates : List ValidatorUpdate → Except Err (List Validator)
  pubKeyTypeOf : Bytes → Except Err String
  now : Nat

/-- Go's `copy(dst, src)`: writes `min (len dst) (len src)` bytes into the
front of `dst` and returns the resulting buffer contents. -/
def goCopy (dst src : Bytes) : Bytes :=
  let n := min dst.length src.length
  src.take n ++ dst.drop n

/-- Identity byte-wise conversion from mempool transactions. -/
def toRollkitTxs (txs : List Tx) : List Tx := txs

/-- Identity byte-wise conversion to consensus-layer transactions. -/
def fromRollkitTxs (txs : List Tx) : List Tx := txs

/-- Modelled from the spec: the success shape of the codec's
`abciconv.ToABCIHeaderPB` (package `conv/abci`, not part of the embedded
source): it "translates between the rollup's native block/commit/header
types and the consensus-layer (ABCI) protobuf types", carrying the header
fields across unchanged. -/
def abciHeaderOf (h : Header) : ABCIHeader :=
  { ChainID := h.BaseHeader.ChainID
    Height := h.BaseHeader.Height
    Time := h.BaseHeader.Time
    AppHash := h.AppHash
    ValidatorsHash := h.AggregatorsHash
    ProposerAddress := h.ProposerAddress }

/-- `abciconv.ToABCIHeaderPB`: may fail (failure abstracted in `Env`),
otherwise yields the converted header. -/
def ToABCIHeaderPB (env : Env) (h : Header) : Except Err ABCIHeader :=
  match env.toABCIHeaderErr h with
  | some e => .error e
  | none => .ok (abciHeaderOf h)

/-- Modelled from the spec: the success shape of `abciconv.ToABCIBlock`
(package `conv/abci`, not part of the embedded source); the conversion
layer preserves the transaction list and the header data. -/
def abciBlockOf (b : Block) : ABCIBlock :=
  { Txs := b.Data.Txs
    Height := b.SignedHeader.Header.BaseHeader.Height
    Time := b.SignedHeader.Header.BaseHeader.Time
    ProposerAddress := b.SignedHeader.Header.ProposerAddress
    NextValidatorsHash := b.SignedHeader.Header.AggregatorsHash }

/-- `abciconv.ToABCIBlock`: may fail (failure abstracted in `Env`),
otherwise yields the converted block. -/
def ToABCIBlock (env : Env) (b : Block) : Except Err ABCIBlock :=
  match env.toABCIBlockErr b with
  | some e => .error e
  | none => .ok (abciBlockOf b)

namespace BlockExecutor

/-- `BlockExecutor.validate`: basic structural validation, version check,
height linkage, and hash linkage against the current state. -/
def validate (env : Env) (state : State) (block : Block) : Option Err :=
  match env.validateBasicErr block with
  | some e => some e
  | none =>
    if block.SignedHeader.Header.Version.App ≠ state.Version.Consensus.App ∨
       block.SignedHeader.Header.Version.Block ≠ state.Version.Consensus.Block then
      some .blockVersionMismatch
    else if state.LastBlockHeight ≤ 0 ∧
            block.SignedHeader.Header.BaseHeader.Height ≠ state.InitialHeight then
      some .initialHeightMismatch
    else if 0 < state.LastBlockHeight ∧
            block.SignedHeader.Header.BaseHeader.Height ≠ state.LastBlockHeight + 1 then
      some .heightMismatch
    else if block.SignedHeader.Header.AppHash ≠ state.AppHash then
      some .appHashMismatch
    else if block.SignedHeader.Header.LastResultsHash ≠ state.LastResultsHash then
      some .lastResultsHashMismatch
    else if block.SignedHeader.Header.AggregatorsHash ≠ env.valSetHash state.Validators then
      some .aggregatorsHashMismatch
    else
      none

/-- `validateValidatorUpdates`: non-negative power; power 0 deletes with no
key check; otherwise the decoded public-key type must be listed in the
consensus validator params (`IsValidPubkeyType` is list membership). -/
def validateValidatorUpdates (env : Env) :
    List ValidatorUpdate → ValidatorParams → Option Err
  | [], _ => none
  | u :: rest, params =>
    if u.Power < 0 then some .negativeVotingPower
    else if u.Power = 0 then validateValidatorUpdates env rest params
    else
      match env.pubKeyTypeOf u.PubKey with
      | .error e => some e
      | .ok t =>
        if params.PubKeyTypes.contains t then validateValidatorUpdates env rest params
        else some .unsupportedPubKeyType

/-- `getLastCommitHash`: convert the last commit through the external
codec; when it has exactly one signature, rewrite that signature's
validator address to the executor's proposer address and its timestamp to
the (new) header's time before hashing. -/
def getLastCommitHash (env : Env) (e : Executor) (lastCommit : Commit) (header : Header) : Bytes :=
  let lastABCICommit :=
    env.toABCICommit lastCommit header.BaseHeader.Height (env.headerHash header)
  let c :=
    if lastCommit.Signatures.length = 1 then
      { lastABCICommit with
        Signatures :=
          -- Go indexes Signatures[0]; the codec emits one converted
          -- signature per input signature, so the list is non-empty here.
          match lastABCICommit.Signatures with
          | [] => lastABCICommit.Signatures
          | s :: rest =>
            { s with ValidatorAddress := e.proposerAddress
                     Timestamp := header.BaseHeader.Time } :: rest }
    else lastABCICommit
  env.commitHash c

/-- The header value `CreateBlock` assembles before computing
`LastCommitHash` (its `LastHeaderHash`, `LastCommitHash` and
`AggregatorsHash` fields still hold their zero values at that point). -/
def createBlockPreHeader (env : Env) (e : Executor) (height : Nat) (state : State) : Header :=
  { Version := ⟨state.Version.Consensus.Block, state.Version.Consensus.App⟩
    BaseHeader := ⟨e.chainID, height, env.now⟩
    LastHeaderHash := []
    LastCommitHash := []
    DataHash := List.replicate 32 0
    ConsensusHash := List.replicate 32 0
    AppHash := state.AppHash
    LastResultsHash := state.LastResultsHash
    AggregatorsHash := []
    ProposerAddress := e.proposerAddress }

/-- `CreateBlock`: reap transactions from the mempool and build a block;
`LastCommitHash` is computed from the partially assembled header, then
`LastHeaderHash` and `AggregatorsHash` are filled in. -/
def CreateBlock (env : Env) (e : Executor) (height : Nat) (lastCommit : Commit)
    (lastHeaderHash : Bytes) (state : State) : Block :=
  let maxBytes := state.ConsensusParams.Block.MaxBytes
  let maxGas := state.ConsensusParams.Block.MaxGas
  let mempoolTxs := env.reapMaxBytesMaxGas maxBytes maxGas
  let header0 := createBlockPreHeader env e height state
  let header1 :=
    { header0 with
      LastCommitHash := getLastCommitHash env e lastCommit header0
      LastHeaderHash := lastHeaderHash
      AggregatorsHash := env.valSetHash state.Validators }
  { SignedHeader := ⟨header1, lastCommit⟩
    Data := ⟨toRollkitTxs mempoolTxs, ⟨none⟩⟩ }

/-- `updateState`: rotate validator pointers and build the next state.
`LastResultsHash` is written with Go `copy` whose destination is the
field's zero value (the composite literal omits it and the `Hash` type is
a slice), i.e. a zero-length buffer. -/
def updateState (env : Env) (state : State) (block : Block)
    (abciResponses : LegacyABCIResponses) (validatorUpdates : List Validator) :
    State × Option Err :=
  let nValSet := state.NextValidators
  let lastHeightValSetChanged := state.LastHeightValidatorsChanged
  let branch : Except Err (ValidatorSet × Nat) :=
    if 0 < nValSet.Validators.length then
      let afterUpd : Except Err (ValidatorSet × Nat) :=
        if 0 < validatorUpdates.length then
          match env.updateWithChangeSet nValSet validatorUpdates with
          | .error msg =>
            if msg ≠ ErrEmptyValSetGeneratedMsg then .error (.valSetUpdateFailed msg)
            else
              .ok (⟨[], none⟩, block.SignedHeader.Header.BaseHeader.Height + 1 + 1)
          | .ok updated =>
            .ok (updated, block.SignedHeader.Header.BaseHeader.Height + 1 + 1)
        else .ok (nValSet, lastHeightValSetChanged)
      match afterUpd with
      | .error e => .error e
      | .ok (v, lh) =>
        .ok ((if 0 < v.Validators.length then env.incrementProposerPriority v 1 else v), lh)
    else if 0 < validatorUpdates.length then .error .addingValidatorToBased
    else .ok (nValSet, lastHeightValSetChanged)
  match branch with
  | .error e => (state, some e)
  | .ok (v, lh) =>
    ({ Version := state.Version
       ChainID := state.ChainID
       InitialHeight := state.InitialHeight
       LastBlockHeight := block.SignedHeader.Header.BaseHeader.Height
       LastBlockID := env.headerHash block.SignedHeader.Header
       LastBlockTime := block.SignedHeader.Header.BaseHeader.Time
       NextValidators := v
       Validators := v
       LastValidators := state.Validators
       LastHeightValidatorsChanged := lh
       ConsensusParams := state.ConsensusParams
       LastHeightConsensusParamsChanged := state.LastHeightConsensusParamsChanged
       AppHash := List.replicate 32 0
       LastResultsHash := goCopy [] (env.resultsHash abciResponses.DeliverTxs) },
     none)

/-- `buildLastCommitInfo`: empty at the initial height; otherwise the
codec-converted commit's signature count must match the validator-set
size (`none` models the Go panic on mismatch). -/
def buildLastCommitInfo (env : Env) (block : Block) (lastValSet : ValidatorSet)
    (initialHeight : Nat) : Option CommitInfo :=
  if block.SignedHeader.Header.BaseHeader.Height = initialHeight then
    some { Round := 0, Votes := [] }
  else
    let abciCommit :=
      env.toABCICommit block.SignedHeader.Commit
        block.SignedHeader.Header.BaseHeader.Height
        (env.signedHeaderHash block.SignedHeader)
    if abciCommit.Signatures.length ≠ lastValSet.Validators.length then none
    else
      some { Round := abciCommit.Round
             Votes := lastValSet.Validators.zip (abciCommit.Signatures.map (·.BlockIDFlag)) }

/-- The `RequestGenerateFraudProof` assembled by `generateFraudProof`:
`DeliverTxRequests` verbatim, `EndBlockRequest` only when the request list
is non-nil. -/
def mkGenerateFraudProofRequest (bb : RequestBeginBlock)
    (dtxs : Option (List RequestDeliverTx)) (ebr : Option RequestEndBlock) :
    RequestGenerateFraudProof :=
  { BeginBlockRequest := bb
    DeliverTxRequests := dtxs
    EndBlockRequest := if dtxs.isSome then ebr else none }

/-- `generateFraudProof`: nil begin-block check, app call, nil-proof check. -/
def generateFraudProof (env : Env) (bb : Option RequestBeginBlock)
    (dtxs : Option (List RequestDeliverTx)) (ebr : Option RequestEndBlock) :
    Except Err FraudProof :=
  match bb with
  | none => .error .nilBeginBlockRequest
  | some b =>
    match env.appGenerateFraudProof (mkGenerateFraudProofRequest b dtxs ebr) with
    | .error e => .error e
    | .ok none => .error .fraudProofGenerationFailed
    | .ok (some fp) => .ok fp

/-- `isFraudProofTrigger`: false for a nil supplied list; otherwise read
`currentIsrs[index]` (the `none` result models the Go index-out-of-range
panic) and flag a mismatch with the generated ISR. -/
def isFraudProofTrigger (generatedIsr : Bytes) (currentIsrs : Option (List Bytes))
    (index : Nat) : Option Bool :=
  match currentIsrs with
  | none => some false
  | some isrs =>
    if index < isrs.length then some (decide (isrs.getD index [] ≠ generatedIsr))
    else none

/-- The mutable state of `execute`'s fraud-proof capture: the ISR vector
built so far, the position cursor into the supplied ISR list, the number
of `GetAppHash` calls made, plus observability traces — the list of
positions read from the supplied ISR list, the `GenerateFraudProof`
requests issued to the application, and the proofs handed to the gossip
service. -/
structure GossipSt where
  isrs : List Bytes
  isrIndex : Nat
  hashCalls : Nat
  accesses : List Nat
  fpRequests : List RequestGenerateFraudProof
  broadcasts : List FraudProof
deriving DecidableEq, Repr

def GossipSt.init : GossipSt := ⟨[], 0, 0, [], [], []⟩

/-- The `genAndGossipFraudProofIfNeeded` closure: capture an ISR, append
it, test for divergence at the current position, and on divergence
generate the fraud proof, broadcast it and fail with
`Err.fraudProofGenerated`; otherwise advance the position cursor. -/
def genAndGossipFraudProofIfNeeded (env : Env) (enabled : Bool)
    (currentIsrs : Option (List Bytes)) (bb : RequestBeginBlock)
    (dtxs : Option (List RequestDeliverTx)) (ebr : Option RequestEndBlock)
    (st : GossipSt) : GossipSt × Option Err :=
  if enabled then
    match env.getAppHash st.hashCalls with
    | .error e => (st, some e)
    | .ok isr =>
      match isFraudProofTrigger isr currentIsrs st.isrIndex with
      | none =>
        ({ st with
            isrs := st.isrs ++ [isr]
            hashCalls := st.hashCalls + 1
            accesses := if currentIsrs.isSome then st.accesses ++ [st.isrIndex]
                        else st.accesses },
         some (.panicked "index out of range"))
      | some true =>
        match generateFraudProof env (some bb) dtxs ebr with
        | .error e =>
          ({ st with
              isrs := st.isrs ++ [isr]
              hashCalls := st.hashCalls + 1
              accesses := if currentIsrs.isSome then st.accesses ++ [st.isrIndex]
                          else st.accesses
              fpRequests := st.fpRequests ++ [mkGenerateFraudProofRequest bb dtxs ebr] },
           some e)
        | .ok fp =>
          match env.broadcast fp with
          | .error e =>
            ({ st with
                isrs := st.isrs ++ [isr]
                hashCalls := st.hashCalls + 1
                accesses := if currentIsrs.isSome then st.accesses ++ [st.isrIndex]
                            else st.accesses
                fpRequests := st.fpRequests ++ [mkGenerateFraudProofRequest bb dtxs ebr]
                broadcasts := st.broadcasts ++ [fp] },
             some (.broadcastFailed e))
          | .ok _ =>
            ({ st with
                isrs := st.isrs ++ [isr]
                hashCalls := st.hashCalls + 1
                accesses := if currentIsrs.isSome then st.accesses ++ [st.isrIndex]
                            else st.accesses
                fpRequests := st.fpRequests ++ [mkGenerateFraudProofRequest bb dtxs ebr]
                broadcasts := st.broadcasts ++ [fp] },
             some .fraudProofGenerated)
      | some false =>
        ({ st with
            isrs := st.isrs ++ [isr]
            hashCalls := st.hashCalls + 1
            accesses := if currentIsrs.isSome then st.accesses ++ [st.isrIndex]
                        else st.accesses
            isrIndex := st.isrIndex + 1 },
         none)
  else (st, none)

/-- The per-transaction loop of `execute`: extend the `RequestDeliverTx`
list and run the capture-and-compare step after each transaction. -/
def deliverTxLoop (env : Env) (enabled : Bool) (currentIsrs : Option (List Bytes))
    (bb : RequestBeginBlock) :
    List Tx → List RequestDeliverTx → GossipSt →
    List RequestDeliverTx × GossipSt × Option Err
  | [], reqs, st => (reqs, st, none)
  | tx :: rest, reqs, st =>
    match genAndGossipFraudProofIfNeeded env enabled currentIsrs bb
        (some (reqs ++ [⟨tx⟩])) none st with
    | (st1, some e) => (reqs ++ [⟨tx⟩], st1, some e)
    | (st1, none) => deliverTxLoop env enabled currentIsrs bb rest (reqs ++ [⟨tx⟩]) st1

/-- The up-front ISR length check of `execute`. -/
def isrLenCheck (enabled : Bool) (block : Block) : Option Err :=
  if enabled then
    match block.Data.IntermediateStateRoots.RawRootsList with
    | some l =>
      if l.length ≠ block.Data.Txs.length + 3 then
        some (.invalidIsrLength l.length (block.Data.Txs.length + 3))
      else none
    | none => none
  else none

/-- The `RequestBeginBlock` assembled by `execute` (converted header with
`ChainID` and `ValidatorsHash` overridden). -/
def beginBlockRequestOf (env : Env) (e : Executor) (state : State) (block : Block) :
    RequestBeginBlock :=
  { Hash := env.blockHash block
    Header := { abciHeaderOf block.SignedHeader.Header with
                ChainID := e.chainID
                ValidatorsHash := env.valSetHash state.Validators } }

/-- The `RequestFinalizeBlock` assembled by `execute`. -/
def finalizeRequestOf (env : Env) (block : Block) (ci : CommitInfo) :
    RequestFinalizeBlock :=
  let ab := abciBlockOf block
  { Hash := env.blockHash block
    NextValidatorsHash := ab.NextValidatorsHash
    ProposerAddress := ab.ProposerAddress
    Height := ab.Height
    Time := ab.Time
    DecidedLastCommit := ci
    Txs := ab.Txs }

/-- The initial ISR capture of `execute` (before any phase): when fraud
proofs are enabled, one `GetAppHash` call seeds the ISR vector and moves
the position cursor to 1. -/
def preCapture (env : Env) (enabled : Bool) : GossipSt × Option Err :=
  if enabled then
    match env.getAppHash 0 with
    | .error er => (GossipSt.init, some er)
    | .ok isr =>
      ({ GossipSt.init with isrs := [isr], hashCalls := 1, isrIndex := 1 }, none)
  else (GossipSt.init, none)

/-- `execute`: the pipeline's heart.  Returns the Go result (legacy
response bundle and the block, whose ISR list the proposer path fills in)
or the first error, together with the final capture/trace state. -/
def execute (env : Env) (e : Executor) (state : State) (block : Block) :
    Except Err (LegacyABCIResponses × Block) × GossipSt :=
  match isrLenCheck e.fraudProofsEnabled block with
  | some err => (.error err, GossipSt.init)
  | none =>
    match preCapture env e.fraudProofsEnabled with
    | (st0, some err) => (.error err, st0)
    | (st1, none) =>
      match ToABCIHeaderPB env block.SignedHeader.Header with
      | .error err => (.error err, st1)
      | .ok _abciHeader =>
        match buildLastCommitInfo env block state.Validators state.InitialHeight with
        | none => (.error (.panicked "commit size and validator set length mismatch"), st1)
        | some ci =>
          match ToABCIBlock env block with
          | .error err => (.error err, st1)
          | .ok abciBlock =>
            match env.finalizeBlock (finalizeRequestOf env block ci) with
            | .error err => (.error err, st1)
            | .ok fresp =>
              if abciBlock.Txs.length ≠ fresp.TxResults.length then
                (.error (.txResultsLengthMismatch block.Data.Txs.length fresp.TxResults.length),
                 st1)
              else
                match genAndGossipFraudProofIfNeeded env e.fraudProofsEnabled
                    block.Data.IntermediateStateRoots.RawRootsList
                    (beginBlockRequestOf env e state block) none none st1 with
                | (st2, some err) => (.error err, st2)
                | (st2, none) =>
                  match deliverTxLoop env e.fraudProofsEnabled
                      block.Data.IntermediateStateRoots.RawRootsList
                      (beginBlockRequestOf env e state block) block.Data.Txs [] st2 with
                  | (_, st3, some err) => (.error err, st3)
                  | (reqs, st3, none) =>
                    match genAndGossipFraudProofIfNeeded env e.fraudProofsEnabled
                        block.Data.IntermediateStateRoots.RawRootsList
                        (beginBlockRequestOf env e state block) (some reqs)
                        (some ⟨block.SignedHeader.Header.BaseHeader.Height⟩) st3 with
                    | (st4, some err) => (.error err, st4)
                    | (st4, none) =>
                      (.ok
                        ({ DeliverTxs := List.replicate block.Data.Txs.length none
                           BeginBlock := { Events := fresp.Events }
                           EndBlock :=
                             { ValidatorUpdates := fresp.ValidatorUpdates
                               ConsensusParamUpdates := fresp.ConsensusParamUpdates
                               Events := fresp.Events } },
                         if e.fraudProofsEnabled &&
                             block.Data.IntermediateStateRoots.RawRootsList.isNone then
                           { block with Data :=
                               { block.Data with IntermediateStateRoots := ⟨some st4.isrs⟩ } }
                         else block),
                       st4)

/-- `ApplyBlock`: validate, execute, sanity-check and translate validator
updates, update state.  Mirrors the Go error paths: validate / execute /
serialization / updateState failures return the zero `State`; the two
validator-update failures return the input state. -/
def ApplyBlock (env : Env) (e : Executor) (state : State) (block : Block) :
    State × Option LegacyABCIResponses × Option Err :=
  match validate env state block with
  | some err => (State.zero, none, some err)
  | none =>
    match (execute env e state block).1 with
    | .error err => (State.zero, none, some err)
    | .ok (resp, _blockOut) =>
      let abciValUpdates := resp.EndBlock.ValidatorUpdates
      match env.toProtoErr state with
      | some err => (State.zero, none, some err)
      | none =>
        match validateValidatorUpdates env abciValUpdates state.ConsensusParams.Validator with
        | some err => (state, none, some (.inValidatorUpdates err))
        | none =>
          match env.pb2tmValidatorUpdates abciValUpdates with
          | .error err => (state, none, some err)
          | .ok validatorUpdates =>
            match updateState env state block resp validatorUpdates with
            | (_, some err) => (State.zero, none, some err)
            | (newState, none) => (newState, some resp, none)

/-- Observable operations of the commit critical section, in order. -/
inductive CommitOp where
  | lock
  | unlock
  | flushAppConn
  | appCommit
  | getAppHash
  | mempoolUpdate (height : Nat) (txs : List Tx) (results : List (Option ExecTxResult))
      (maxBytes maxGas : Int)
deriving DecidableEq, Repr

/-- `commit` (lower-case): the mempool-locked critical section.  Returns
`(appHash, retainHeight, error)` plus the trace of operations; the
deferred unlock runs on every path. -/
def commit (env : Env) (state : State) (block : Block)
    (deliverTxs : List (Option ExecTxResult)) :
    (Bytes × Nat × Option Err) × List CommitOp :=
  let (res, body) :
      (Bytes × Nat × Option Err) × List CommitOp :=
    match env.flushAppConn with
    | .error e => (([], 0, some e), [.flushAppConn])
    | .ok _ =>
      match env.appCommit with
      | .error e => (([], 0, some e), [.flushAppConn, .appCommit])
      | .ok retainHeight =>
        match env.commitGetAppHash with
        | .error e => (([], 0, some e), [.flushAppConn, .appCommit, .getAppHash])
        | .ok appHash =>
          let maxBytes := state.ConsensusParams.Block.MaxBytes
          let maxGas := state.ConsensusParams.Block.MaxGas
          let h := block.SignedHeader.Header.BaseHeader.Height
          let txs := fromRollkitTxs block.Data.Txs
          match env.mempoolUpdate h txs deliverTxs maxBytes maxGas with
          | .error e =>
            (([], 0, some e),
             [.flushAppConn, .appCommit, .getAppHash,
              .mempoolUpdate h txs deliverTxs maxBytes maxGas])
          | .ok _ =>
            ((appHash, retainHeight, none),
             [.flushAppConn, .appCommit, .getAppHash,
              .mempoolUpdate h txs deliverTxs maxBytes maxGas])
  (res, CommitOp.lock :: body ++ [CommitOp.unlock])

/-- The observable outcome of the exported `Commit`. -/
structure CommitOut where
  appHash : Bytes
  retainHeight : Nat
  err : Option Err
  ops : List CommitOp
  stateAfter : State
  publishLogged : Option Err
deriving Repr

/-- `Commit` (exported): run the critical section, write the app hash into
the (local) state value, publish events best-effort (result only logged),
and return the app hash and retain height. -/
def Commit (env : Env) (state : State) (block : Block)
    (resp : LegacyABCIResponses) : CommitOut :=
  let ((appHash, retainHeight, errOpt), ops) := commit env state block resp.DeliverTxs
  match errOpt with
  | some e =>
    { appHash := [], retainHeight := 0, err := some e, ops := ops,
      stateAfter := state, publishLogged := none }
  | none =>
    let state' := { state with AppHash := appHash }
    let pubErr := env.publishEvents resp block state'
    { appHash := appHash, retainHeight := retainHeight, err := none, ops := ops,
      stateAfter := state', publishLogged := pubErr }

end BlockExecutor

/-! ### Concrete fixtures

Closed environments, states and blocks used by the witness theorems. -/

/-- A fully concrete environment in which every collaborator call
succeeds trivially. -/
def envBase : Env :=
  { getAppHash := fun _ => .ok []
    finalizeBlock := fun req =>
      .ok { TxResults := req.Txs.map (fun _ => ⟨0, []⟩)
            ValidatorUpdates := []
            ConsensusParamUpdates := none
            Events := []
            AppHash := [] }
    appGenerateFraudProof := fun _ => .ok (some 7)
    broadcast := fun _ => .ok ()
    appCommit := .ok 11
    commitGetAppHash := .ok [170]
    flushAppConn := .ok ()
    mempoolUpdate := fun _ _ _ _ _ => .ok ()
    reapMaxBytesMaxGas := fun _ _ => []
    publishEvents := fun _ _ _ => none
    validateBasicErr := fun _ => none
    toABCIHeaderErr := fun _ => none
    toABCIBlockErr := fun _ => none
    toProtoErr := fun _ => none
    toABCICommit := fun c h _ => { Round := 0, Signatures := c.Signatures.map (fun sg => ⟨2, [], h, sg⟩) }
    commitHash := fun c => [c.Signatures.length]
    headerHash := fun _ => []
    blockHash := fun _ => []
    signedHeaderHash := fun _ => []
    valSetHash := fun _ => []
    resultsHash := fun _ => []
    updateWithChangeSet := fun v _ => .ok v
    incrementProposerPriority := fun v _ => v
    pb2tmValidatorUpdates := fun _ => .ok []
    pubKeyTypeOf := fun _ => .ok "ed25519"
    now := 100 }

def valSetW : ValidatorSet := ⟨[⟨[1], "ed25519", 10⟩], none⟩

def stateW : State :=
  { Version := ⟨⟨1, 2⟩⟩
    ChainID := "c1"
    InitialHeight := 1
    LastBlockHeight := 0
    LastBlockID := []
    LastBlockTime := 0
    NextValidators := valSetW
    Validators := valSetW
    LastValidators := valSetW
    LastHeightValidatorsChanged := 0
    ConsensusParams := ⟨⟨100, 1000⟩, ⟨["ed25519"]⟩⟩
    LastHeightConsensusParamsChanged := 0
    LastResultsHash := []
    AppHash := [] }

def headerW : Header :=
  { Version := ⟨1, 2⟩
    BaseHeader := ⟨"c1", 1, 50⟩
    LastHeaderHash := []
    LastCommitHash := []
    DataHash := []
    ConsensusHash := []
    AppHash := []
    LastResultsHash := []
    AggregatorsHash := []
    ProposerAddress := [9] }

/-- A block with one transaction and a nil ISR list, consistent with
`stateW` under `envBase`. -/
def blockW : Block := { SignedHeader := ⟨headerW, ⟨[]⟩⟩, Data := ⟨[[5]], ⟨none⟩⟩ }

def exeT : Executor := ⟨[9], [0, 0, 0, 0, 0, 0, 0, 0], "c1", true⟩

def exeF : Executor := ⟨[9], [0, 0, 0, 0, 0, 0, 0, 0], "c1", false⟩

/-- App hashes are distinct per `GetAppHash` call: call `k` yields `[k]`. -/
def envSeq : Env := { envBase with getAppHash := fun k => .ok [k] }

/-- A supplied ISR list for `blockW`'s single transaction that diverges
from `envSeq`'s app hashes at position 2 (after the first DeliverTx). -/
def isrListW : List Bytes := [[9], [1], [99], [3]]

def blockIsr : Block := { blockW with Data := ⟨[[5]], ⟨some isrListW⟩⟩ }

/-- A supplied ISR list agreeing with `envSeq` everywhere. -/
def isrListOk : List Bytes := [[0], [1], [2], [3]]

def blockIsrOk : Block := { blockW with Data := ⟨[[5]], ⟨some isrListOk⟩⟩ }

/-- The application returns no tx results regardless of the block. -/
def envLenBad : Env :=
  { envBase with finalizeBlock := fun _ => .ok ⟨[], [], none, [], []⟩ }

/-- Applying any validator change set reports the empty-set error. -/
def envEmptyGen : Env :=
  { envBase with updateWithChangeSet := fun _ _ => .error ErrEmptyValSetGeneratedMsg }

/-- A state whose copied `NextValidators` set is empty. -/
def stateEmptyNext : State := { stateW with NextValidators := ⟨[], none⟩ }

def updW : List Validator := [⟨[1], "ed25519", 5⟩]

/-- The DeliverTx results hash to a non-empty 32-byte value. -/
def envResHash : Env := { envBase with resultsHash := fun _ => List.replicate 32 1 }

def respW : LegacyABCIResponses := ⟨[none], ⟨[]⟩, ⟨[], none, []⟩⟩

def commitOneSig : Commit := ⟨[[7]]⟩

def commitNoSig : Commit := ⟨[]⟩

/-- `blockW` with a header `AppHash` that does not match `stateW`'s. -/
def blockBad : Block :=
  { blockW with SignedHeader := ⟨{ headerW with AppHash := [1] }, ⟨[]⟩⟩ }

/-- Bound-membership property for the ISR positions `execute` reads from a
supplied ISR list: every access lies in `[1, bound)`. -/
def IsrAccessesInBounds (st : BlockExecutor.GossipSt) (bound : Nat) : Prop :=
  ∀ i ∈ st.accesses, 1 ≤ i ∧ i < bound

instance (st : BlockExecutor.GossipSt) (bound : Nat) :
    Decidable (IsrAccessesInBounds st bound) := by
  unfold IsrAccessesInBounds
  infer_instance

/-! ### Helper lemmas about the capture-and-compare step and the tx loop -/

namespace BlockExecutor

theorem isFraudProofTrigger_lt (v : Bytes) (l : List Bytes) (idx : Nat)
    (h : idx < l.length) :
    isFraudProofTrigger v (some l) idx = some (decide (l.getD idx [] ≠ v)) := by
  simp [isFraudProofTrigger, h]

theorem genAndGossip_clean_eq (env : Env) (cur : Option (List Bytes))
    (bb : RequestBeginBlock) (dtxs : Option (List RequestDeliverTx))
    (ebr : Option RequestEndBlock) (st : GossipSt) (isr : Bytes)
    (hh : env.getAppHash st.hashCalls = .ok isr)
    (ht : isFraudProofTrigger isr cur st.isrIndex = some false) :
    genAndGossipFraudProofIfNeeded env true cur bb dtxs ebr st =
      ({ st with
          isrs := st.isrs ++ [isr]
          hashCalls := st.hashCalls + 1
          accesses := if cur.isSome then st.accesses ++ [st.isrIndex] else st.accesses
          isrIndex := st.isrIndex + 1 }, none) := by
  obtain ⟨a, b, c, d, e, f⟩ := st
  simp only [genAndGossipFraudProofIfNeeded, if_true] at *
  rw [hh]
  simp [ht]

theorem genAndGossip_trigger_eq (env : Env) (cur : Option (List Bytes))
    (bb : RequestBeginBlock) (dtxs : Option (List RequestDeliverTx))
    (ebr : Option RequestEndBlock) (st : GossipSt) (isr : Bytes) (fp : FraudProof)
    (hh : env.getAppHash st.hashCalls = .ok isr)
    (ht : isFraudProofTrigger isr cur st.isrIndex = some true)
    (hfp : env.appGenerateFraudProof (mkGenerateFraudProofRequest bb dtxs ebr) =
      .ok (some fp))
    (hbc : env.broadcast fp = .ok ()) :
    genAndGossipFraudProofIfNeeded env true cur bb dtxs ebr st =
      ({ st with
          isrs := st.isrs ++ [isr]
          hashCalls := st.hashCalls + 1
          accesses := if cur.isSome then st.accesses ++ [st.isrIndex] else st.accesses
          fpRequests := st.fpRequests ++ [mkGenerateFraudProofRequest bb dtxs ebr]
          broadcasts := st.broadcasts ++ [fp] }, some .fraudProofGenerated) := by
  obtain ⟨a, b, c, d, e, f⟩ := st
  simp only [genAndGossipFraudProofIfNeeded, if_true] at *
  rw [hh]
  simp [ht, generateFraudProof, hfp, hbc]

theorem genAndGossip_ok_inv {env : Env} {cur : Option (List Bytes)}
    {bb : RequestBeginBlock} {dtxs : Option (List RequestDeliverTx)}
    {ebr : Option RequestEndBlock} {st st' : GossipSt}
    (h : genAndGossipFraudProofIfNeeded env true cur bb dtxs ebr st = (st', none)) :
    ∃ isr, env.getAppHash st.hashCalls = .ok isr ∧
      st' = { st with
          isrs := st.isrs ++ [isr]
          hashCalls := st.hashCalls + 1
          accesses := if cur.isSome then st.accesses ++ [st.isrIndex] else st.accesses
          isrIndex := st.isrIndex + 1 } := by
  unfold genAndGossipFraudProofIfNeeded at h
  rw [if_pos rfl] at h
  split at h
  · simp at h
  · rename_i isr hh
    split at h
    · simp at h
    · split at h
      · simp at h
      · split at h
        · simp at h
        · simp at h
    · rename_i ht
      simp only [Prod.mk.injEq] at h
      exact ⟨isr, hh, h.1.symm⟩

theorem genAndGossip_step_bound {env : Env} {cur : Option (List Bytes)}
    {bb : RequestBeginBlock} {dtxs : Option (List RequestDeliverTx)}
    {ebr : Option RequestEndBlock} {st st' : GossipSt} {eo : Option Err}
    (h : genAndGossipFraudProofIfNeeded env true cur bb dtxs ebr st = (st', eo)) :
    (∀ i ∈ st'.accesses, i ∈ st.accesses ∨ i = st.isrIndex) ∧
    st.isrIndex ≤ st'.isrIndex ∧ st'.isrIndex ≤ st.isrIndex + 1 ∧
    (eo = none → st'.isrIndex = st.isrIndex + 1) := by
  have hmem : ∀ {a : List Nat} {idx i : Nat},
      i ∈ (if cur.isSome = true then a ++ [idx] else a) → i ∈ a ∨ i = idx := by
    intro a idx i hi
    split at hi
    · rcases List.mem_append.mp hi with hx | hx
      · exact Or.inl hx
      · exact Or.inr (List.mem_singleton.mp hx)
    · exact Or.inl hi
  unfold genAndGossipFraudProofIfNeeded at h
  rw [if_pos rfl] at h
  split at h
  · obtain ⟨h1, h2⟩ := Prod.mk.injEq .. |>.mp h
    subst h1; subst h2
    exact ⟨fun i hi => Or.inl hi, Nat.le_refl _, Nat.le_succ _, by simp⟩
  · split at h
    · obtain ⟨h1, h2⟩ := Prod.mk.injEq .. |>.mp h
      subst h1; subst h2
      exact ⟨fun i hi => hmem hi, Nat.le_refl _, Nat.le_succ _, by simp⟩
    · split at h
      · obtain ⟨h1, h2⟩ := Prod.mk.injEq .. |>.mp h
        subst h1; subst h2
        exact ⟨fun i hi => hmem hi, Nat.le_refl _, Nat.le_succ _, by simp⟩
      · split at h
        · obtain ⟨h1, h2⟩ := Prod.mk.injEq .. |>.mp h
          subst h1; subst h2
          exact ⟨fun i hi => hmem hi, Nat.le_refl _, Nat.le_succ _, by simp⟩
        · obtain ⟨h1, h2⟩ := Prod.mk.injEq .. |>.mp h
          subst h1; subst h2
          exact ⟨fun i hi => hmem hi, Nat.le_refl _, Nat.le_succ _, by simp⟩
    · obtain ⟨h1, h2⟩ := Prod.mk.injEq .. |>.mp h
      subst h1; subst h2
      exact ⟨fun i hi => hmem hi, Nat.le_succ _, Nat.le_refl _, fun _ => rfl⟩

theorem deliverTxLoop_ok_inv {env : Env} {cur : Option (List Bytes)}
    {bb : RequestBeginBlock} :
    ∀ {rem : List Tx} {reqs reqs' : List RequestDeliverTx} {st st' : GossipSt},
    deliverTxLoop env true cur bb rem reqs st = (reqs', st', none) →
    reqs' = reqs ++ rem.map RequestDeliverTx.mk ∧
    st'.isrIndex = st.isrIndex + rem.length ∧
    st'.hashCalls = st.hashCalls + rem.length ∧
    st'.isrs.length = st.isrs.length + rem.length ∧
    st'.fpRequests = st.fpRequests ∧
    st'.broadcasts = st.broadcasts := by
  intro rem
  induction rem with
  | nil =>
    intro reqs reqs' st st' h
    unfold deliverTxLoop at h
    simp only [Prod.mk.injEq] at h
    obtain ⟨h1, h2, _⟩ := h
    subst h2
    simp [h1.symm]
  | cons tx rest ih =>
    intro reqs reqs' st st' h
    unfold deliverTxLoop at h
    split at h
    · simp at h
    · rename_i st1 heq
      obtain ⟨isr, _, hst1⟩ := genAndGossip_ok_inv heq
      obtain ⟨h1, h2, h3, h4, h5, h6⟩ := ih h
      subst hst1
      refine ⟨by simp [h1], ?_, ?_, ?_, by simpa using h5, by simpa using h6⟩
      · rw [h2]; simp; omega
      · rw [h3]; simp; omega
      · rw [h4]; simp; omega

theorem deliverTxLoop_bound {env : Env} {cur : Option (List Bytes)}
    {bb : RequestBeginBlock} :
    ∀ {rem : List Tx} {reqs reqs' : List RequestDeliverTx} {st st' : GossipSt}
      {eo : Option Err},
    deliverTxLoop env true cur bb rem reqs st = (reqs', st', eo) →
    (∀ i ∈ st'.accesses, i ∈ st.accesses ∨ (st.isrIndex ≤ i ∧ i < st.isrIndex + rem.length)) ∧
    st.isrIndex ≤ st'.isrIndex ∧ st'.isrIndex ≤ st.isrIndex + rem.length := by
  intro rem
  induction rem with
  | nil =>
    intro reqs reqs' st st' eo h
    unfold deliverTxLoop at h
    simp only [Prod.mk.injEq] at h
    obtain ⟨_, h2, _⟩ := h
    subst h2
    exact ⟨fun i hi => Or.inl hi, Nat.le_refl _, Nat.le_refl _⟩
  | cons tx rest ih =>
    intro reqs reqs' st st' eo h
    have hlen : (tx :: rest).length = rest.length + 1 := rfl
    unfold deliverTxLoop at h
    split at h
    · rename_i st1 e heq
      simp only [Prod.mk.injEq] at h
      obtain ⟨_, h2, _⟩ := h
      subst h2
      obtain ⟨m1, m2, m3, _⟩ := genAndGossip_step_bound heq
      refine ⟨?_, by omega, by omega⟩
      intro i hi
      rcases m1 i hi with hx | hx
      · exact Or.inl hx
      · right; omega
    · rename_i st1 heq
      obtain ⟨m1, m2, m3, m4⟩ := genAndGossip_step_bound heq
      have hidx1 : st1.isrIndex = st.isrIndex + 1 := m4 rfl
      obtain ⟨l1, l2, l3⟩ := ih h
      refine ⟨?_, by omega, by omega⟩
      intro i hi
      rcases l1 i hi with hx | hx
      · rcases m1 i hx with hy | hy
        · exact Or.inl hy
        · right; omega
      · right; omega

theorem deliverTxLoop_clean_eq (env : Env) (cur : Option (List Bytes))
    (bb : RequestBeginBlock) (g : Nat → Bytes) :
    ∀ (rem : List Tx) (reqs : List RequestDeliverTx) (st : GossipSt),
    st.isrIndex = st.hashCalls →
    (∀ t, t < rem.length →
      env.getAppHash (st.hashCalls + t) = .ok (g (st.hashCalls + t))) →
    (∀ t, t < rem.length →
      isFraudProofTrigger (g (st.hashCalls + t)) cur (st.hashCalls + t) = some false) →
    ∃ st', deliverTxLoop env true cur bb rem reqs st =
        (reqs ++ rem.map RequestDeliverTx.mk, st', none) ∧
      st'.isrIndex = st.isrIndex + rem.length ∧
      st'.hashCalls = st.hashCalls + rem.length ∧
      st'.fpRequests = st.fpRequests ∧
      st'.broadcasts = st.broadcasts := by
  intro rem
  induction rem with
  | nil =>
    intro reqs st _ _ _
    exact ⟨st, by simp [deliverTxLoop], by simp, by simp, rfl, rfl⟩
  | cons tx rest ih =>
    intro reqs st hsync hok htr
    have h0 := hok 0 (by simp)
    have t0 := htr 0 (by simp)
    rw [Nat.add_zero] at h0 t0
    have t0' : isFraudProofTrigger (g st.hashCalls) cur st.isrIndex = some false := by
      rw [hsync]; exact t0
    have hstep := genAndGossip_clean_eq env cur bb (some (reqs ++ [⟨tx⟩])) none st
      (g st.hashCalls) h0 t0'
    have hok1 : ∀ t, t < rest.length →
        env.getAppHash (st.hashCalls + 1 + t) = .ok (g (st.hashCalls + 1 + t)) := by
      intro t ht
      have := hok (t + 1) (by simp; omega)
      rwa [show st.hashCalls + (t + 1) = st.hashCalls + 1 + t by omega] at this
    have htr1 : ∀ t, t < rest.length →
        isFraudProofTrigger (g (st.hashCalls + 1 + t)) cur (st.hashCalls + 1 + t) =
          some false := by
      intro t ht
      have := htr (t + 1) (by simp; omega)
      rwa [show st.hashCalls + (t + 1) = st.hashCalls + 1 + t by omega] at this
    obtain ⟨st', hrun, hi1, hi2, hi3, hi4⟩ := ih (reqs ++ [⟨tx⟩])
      { st with
        isrs := st.isrs ++ [g st.hashCalls]
        hashCalls := st.hashCalls + 1
        accesses := if cur.isSome then st.accesses ++ [st.isrIndex] else st.accesses
        isrIndex := st.isrIndex + 1 }
      (by simp [hsync]) (by simpa using hok1) (by simpa using htr1)
    refine ⟨st', ?_, ?_, ?_, by simpa using hi3, by simpa using hi4⟩
    · unfold deliverTxLoop
      rw [hstep]
      simpa using hrun
    · have e1 : st'.isrIndex = st.isrIndex + 1 + rest.length := hi1
      simp only [List.length_cons]
      omega
    · have e2 : st'.hashCalls = st.hashCalls + 1 + rest.length := hi2
      simp only [List.length_cons]
      omega

theorem deliverTxLoop_trigger_eq (env : Env) (cur : Option (List Bytes))
    (bb : RequestBeginBlock) (g : Nat → Bytes) (fp : FraudProof) :
    ∀ (rem : List Tx) (m : Nat) (reqs : List RequestDeliverTx) (st : GossipSt),
    st.isrIndex = st.hashCalls →
    m < rem.length →
    (∀ t, t ≤ m → env.getAppHash (st.hashCalls + t) = .ok (g (st.hashCalls + t))) →
    (∀ t, t < m →
      isFraudProofTrigger (g (st.hashCalls + t)) cur (st.hashCalls + t) = some false) →
    isFraudProofTrigger (g (st.hashCalls + m)) cur (st.hashCalls + m) = some true →
    env.appGenerateFraudProof
      (mkGenerateFraudProofRequest bb
        (some (reqs ++ (rem.take (m + 1)).map RequestDeliverTx.mk)) none) =
      .ok (some fp) →
    env.broadcast fp = .ok () →
    ∃ reqs' st',
      deliverTxLoop env true cur bb rem reqs st = (reqs', st', some .fraudProofGenerated) ∧
      st'.fpRequests = st.fpRequests ++
        [mkGenerateFraudProofRequest bb
          (some (reqs ++ (rem.take (m + 1)).map RequestDeliverTx.mk)) none] ∧
      st'.broadcasts = st.broadcasts ++ [fp] := by
  intro rem
  induction rem with
  | nil =>
    intro m reqs st _ hm
    exact absurd hm (by simp)
  | cons tx rest ih =>
    intro m reqs st hsync hm hok hcl htr hfp hbc
    cases m with
    | zero =>
      have h0 := hok 0 (Nat.le_refl 0)
      rw [Nat.add_zero] at h0 htr
      have htr' : isFraudProofTrigger (g st.hashCalls) cur st.isrIndex = some true := by
        rw [hsync]; exact htr
      have htake : (tx :: rest).take 1 = [tx] := rfl
      rw [htake] at hfp
      have hstep := genAndGossip_trigger_eq env cur bb (some (reqs ++ [⟨tx⟩])) none st
        (g st.hashCalls) fp h0 htr' hfp hbc
      refine ⟨reqs ++ [⟨tx⟩],
        { st with
          isrs := st.isrs ++ [g st.hashCalls]
          hashCalls := st.hashCalls + 1
          accesses := if cur.isSome = true then st.accesses ++ [st.isrIndex]
                      else st.accesses
          fpRequests := st.fpRequests ++
            [mkGenerateFraudProofRequest bb (some (reqs ++ [⟨tx⟩])) none]
          broadcasts := st.broadcasts ++ [fp] }, ?_, ?_, ?_⟩
      · unfold deliverTxLoop
        rw [hstep]
      · simp [htake]
      · rfl
    | succ m' =>
      have h0 := hok 0 (by omega)
      have c0 := hcl 0 (by omega)
      rw [Nat.add_zero] at h0 c0
      have c0' : isFraudProofTrigger (g st.hashCalls) cur st.isrIndex = some false := by
        rw [hsync]; exact c0
      have hstep := genAndGossip_clean_eq env cur bb (some (reqs ++ [⟨tx⟩])) none st
        (g st.hashCalls) h0 c0'
      have hok1 : ∀ t, t ≤ m' →
          env.getAppHash (st.hashCalls + 1 + t) = .ok (g (st.hashCalls + 1 + t)) := by
        intro t ht
        have := hok (t + 1) (by omega)
        rwa [show st.hashCalls + (t + 1) = st.hashCalls + 1 + t by omega] at this
      have hcl1 : ∀ t, t < m' →
          isFraudProofTrigger (g (st.hashCalls + 1 + t)) cur (st.hashCalls + 1 + t) =
            some false := by
        intro t ht
        have := hcl (t + 1) (by omega)
        rwa [show st.hashCalls + (t + 1) = st.hashCalls + 1 + t by omega] at this
      have htr1 : isFraudProofTrigger (g (st.hashCalls + 1 + m')) cur
          (st.hashCalls + 1 + m') = some true := by
        rwa [show st.hashCalls + (m' + 1) = st.hashCalls + 1 + m' by omega] at htr
      have htake : (tx :: rest).take (m' + 1 + 1) = tx :: rest.take (m' + 1) := rfl
      rw [htake] at hfp
      have hfp1 : env.appGenerateFraudProof
          (mkGenerateFraudProofRequest bb
            (some ((reqs ++ [⟨tx⟩]) ++ (rest.take (m' + 1)).map RequestDeliverTx.mk))
            none) = .ok (some fp) := by
        simpa using hfp
      obtain ⟨reqs', st', hrun, hfpr, hbcast⟩ := ih m' (reqs ++ [⟨tx⟩])
        { st with
          isrs := st.isrs ++ [g st.hashCalls]
          hashCalls := st.hashCalls + 1
          accesses := if cur.isSome then st.accesses ++ [st.isrIndex] else st.accesses
          isrIndex := st.isrIndex + 1 }
        (by simp [hsync]) (by simpa using hm) (by simpa using hok1)
        (by simpa using hcl1) (by simpa using htr1) (by simpa using hfp1) hbc
      refine ⟨reqs', st', ?_, ?_, ?_⟩
      · unfold deliverTxLoop
        rw [hstep]
        simpa using hrun
      · simpa using hfpr
      · simpa using hbcast

theorem trigger_true_of_ne {l : List Bytes} {v : Bytes} {k : Nat} (hk : k < l.length)
    (h : l.getD k [] ≠ v) : isFraudProofTrigger v (some l) k = some true := by
  rw [isFraudProofTrigger_lt _ _ _ hk]
  exact congrArg some (decide_eq_true h)

theorem trigger_false_of_eq {l : List Bytes} {v : Bytes} {k : Nat} (hk : k < l.length)
    (h : l.getD k [] = v) : isFraudProofTrigger v (some l) k = some false := by
  rw [isFraudProofTrigger_lt _ _ _ hk]
  exact congrArg some (decide_eq_false (fun hne => hne h))

theorem preCapture_inv {env : Env} {en : Bool} {st : GossipSt} {eo : Option Err}
    (h : preCapture env en = (st, eo)) :
    st.accesses = [] ∧ st.isrIndex ≤ 1 := by
  unfold preCapture at h
  split at h
  · split at h
    · obtain ⟨h1, _⟩ := Prod.mk.injEq .. |>.mp h
      subst h1
      exact ⟨rfl, by decide⟩
    · obtain ⟨h1, _⟩ := Prod.mk.injEq .. |>.mp h
      subst h1
      exact ⟨rfl, Nat.le_refl _⟩
  · obtain ⟨h1, _⟩ := Prod.mk.injEq .. |>.mp h
    subst h1
    exact ⟨rfl, by decide⟩

theorem preCapture_ok_inv {env : Env} {st : GossipSt}
    (h : preCapture env true = (st, none)) :
    ∃ isr, env.getAppHash 0 = .ok isr ∧
      st = { GossipSt.init with isrs := [isr], hashCalls := 1, isrIndex := 1 } := by
  unfold preCapture at h
  rw [if_pos rfl] at h
  split at h
  · simp at h
  · rename_i isr hh
    simp only [Prod.mk.injEq] at h
    exact ⟨isr, hh, h.1.symm⟩

theorem preCapture_ok_eq (env : Env) (isr : Bytes) (hh : env.getAppHash 0 = .ok isr) :
    preCapture env true =
      ({ GossipSt.init with isrs := [isr], hashCalls := 1, isrIndex := 1 }, none) := by
  simp [preCapture, hh]

end BlockExecutor

/-! ### Claim theorems -/

/-- C3: `validate` fails with an error exactly when basic structural
validation fails, the header's block or app version differs from the
state's, the height linkage is wrong (`InitialHeight` when
`LastBlockHeight = 0`, `LastBlockHeight + 1` otherwise), or the header's
`AppHash` / `LastResultsHash` / `AggregatorsHash` differ from the state's
expected values; otherwise it returns no error. -/
theorem validate_ok_iff (env : Env) (state : State) (block : Block) :
    BlockExecutor.validate env state block = none ↔
      (env.validateBasicErr block = none ∧
       block.SignedHeader.Header.Version.App = state.Version.Consensus.App ∧
       block.SignedHeader.Header.Version.Block = state.Version.Consensus.Block ∧
       (state.LastBlockHeight = 0 →
         block.SignedHeader.Header.BaseHeader.Height = state.InitialHeight) ∧
       (0 < state.LastBlockHeight →
         block.SignedHeader.Header.BaseHeader.Height = state.LastBlockHeight + 1) ∧
       block.SignedHeader.Header.AppHash = state.AppHash ∧
       block.SignedHeader.Header.LastResultsHash = state.LastResultsHash ∧
       block.SignedHeader.Header.AggregatorsHash = env.valSetHash state.Validators) := by
  unfold BlockExecutor.validate
  cases hvb : env.validateBasicErr block with
  | some e => simp
  | none =>
    simp only
    split_ifs with h1 h2 h3 h4 h5 h6 <;>
      simp_all <;> omega

/-- C6: in `updateState`, a non-empty copied `NextValidators` set whose
update would produce an empty set is tolerated — an explicitly empty set
with no proposer is substituted and the computation continues; an empty
copied set with a non-empty update list fails with
`ErrAddingValidatorToBased`, returning the input state. -/
theorem updateState_valset_edge_cases (env : Env) (state : State) (block : Block)
    (resp : LegacyABCIResponses) (updates : List Validator) :
    (state.NextValidators.Validators ≠ [] → updates ≠ [] →
      env.updateWithChangeSet state.NextValidators updates =
        .error ErrEmptyValSetGeneratedMsg →
      (BlockExecutor.updateState env state block resp updates).2 = none ∧
      (BlockExecutor.updateState env state block resp updates).1.Validators = ⟨[], none⟩ ∧
      (BlockExecutor.updateState env state block resp updates).1.NextValidators =
        ⟨[], none⟩ ∧
      (BlockExecutor.updateState env state block resp updates).1.LastHeightValidatorsChanged =
        block.SignedHeader.Header.BaseHeader.Height + 2) ∧
    (state.NextValidators.Validators = [] → updates ≠ [] →
      BlockExecutor.updateState env state block resp updates =
        (state, some .addingValidatorToBased)) := by
  constructor
  · intro hne hu hupd
    have hpos : 0 < state.NextValidators.Validators.length := List.length_pos.mpr hne
    have hupos : 0 < updates.length := List.length_pos.mpr hu
    simp only [BlockExecutor.updateState]
    rw [if_pos hpos, if_pos hupos, hupd]
    simp
  · intro hz hu
    have hupos : 0 < updates.length := List.length_pos.mpr hu
    simp only [BlockExecutor.updateState]
    rw [if_neg (by simp [hz]), if_pos hupos]

/-- C6 witness: both edge cases at concrete inputs. -/
theorem updateState_valset_edge_cases_witness :
    ((BlockExecutor.updateState envEmptyGen stateW blockW respW updW).2 = none ∧
     (BlockExecutor.updateState envEmptyGen stateW blockW respW updW).1.Validators =
       ⟨[], none⟩) ∧
    BlockExecutor.updateState envBase stateEmptyNext blockW respW updW =
      (stateEmptyNext, some .addingValidatorToBased) := by
  constructor
  · have h := (updateState_valset_edge_cases envEmptyGen stateW blockW respW updW).1
      (by decide) (by decide) rfl
    exact ⟨h.1, h.2.1⟩
  · exact (updateState_valset_edge_cases envBase stateEmptyNext blockW respW updW).2
      (by decide) (by decide)

/-- C2 (code evaluation at the failing input): `updateState` rotates the
validator pointers, sets the height and the 32-byte zero `AppHash` as
claimed, but the returned `LastResultsHash` stays empty even though the
hash of the DeliverTx results is a non-empty 32-byte value — the Go
`copy` writes into the zero-value (nil) destination slice. -/
theorem updateState_drops_results_hash :
    (BlockExecutor.updateState envResHash stateEmptyNext blockW respW []).2 = none ∧
    (BlockExecutor.updateState envResHash stateEmptyNext blockW respW []).1.LastValidators =
      stateEmptyNext.Validators ∧
    (BlockExecutor.updateState envResHash stateEmptyNext blockW respW []).1.Validators =
      stateEmptyNext.NextValidators ∧
    (BlockExecutor.updateState envResHash stateEmptyNext blockW respW []).1.LastBlockHeight =
      1 ∧
    (BlockExecutor.updateState envResHash stateEmptyNext blockW respW []).1.AppHash =
      List.replicate 32 0 ∧
    envResHash.resultsHash respW.DeliverTxs = List.replicate 32 1 ∧
    (BlockExecutor.updateState envResHash stateEmptyNext blockW respW []).1.LastResultsHash =
      [] ∧
    (BlockExecutor.updateState envResHash stateEmptyNext blockW respW []).1.LastResultsHash ≠
      envResHash.resultsHash respW.DeliverTxs := by
  decide

/-- C7: the `LastCommitHash` computed by `CreateBlock` equals the hash of
the codec-converted last commit where, for a single-signature commit,
signature 0's validator address is rewritten to the executor's proposer
address and its timestamp to the new header's time before hashing;
commits with any other number of signatures are hashed unmodified. -/
theorem CreateBlock_lastCommitHash (env : Env) (e : Executor) (height : Nat)
    (lastCommit : Commit) (lastHeaderHash : Bytes) (state : State)
    (c0 : ABCICommit)
    (hc0 : env.toABCICommit lastCommit height
        (env.headerHash (BlockExecutor.createBlockPreHeader env e height state)) = c0) :
    (∀ s rest, lastCommit.Signatures.length = 1 → c0.Signatures = s :: rest →
      (BlockExecutor.CreateBlock env e height lastCommit lastHeaderHash
          state).SignedHeader.Header.LastCommitHash =
        env.commitHash { c0 with Signatures :=
          { s with ValidatorAddress := e.proposerAddress, Timestamp := env.now } :: rest }) ∧
    (lastCommit.Signatures.length ≠ 1 →
      (BlockExecutor.CreateBlock env e height lastCommit lastHeaderHash
          state).SignedHeader.Header.LastCommitHash = env.commitHash c0) := by
  have hL : (BlockExecutor.CreateBlock env e height lastCommit lastHeaderHash
      state).SignedHeader.Header.LastCommitHash =
      BlockExecutor.getLastCommitHash env e lastCommit
        (BlockExecutor.createBlockPreHeader env e height state) := rfl
  have hH : (BlockExecutor.createBlockPreHeader env e height state).BaseHeader.Height =
      height := rfl
  have hT : (BlockExecutor.createBlockPreHeader env e height state).BaseHeader.Time =
      env.now := rfl
  constructor
  · intro s rest hone hsig
    rw [hL]
    unfold BlockExecutor.getLastCommitHash
    rw [hH, hT, hc0]
    simp [hone, hsig]
  · intro hne
    rw [hL]
    unfold BlockExecutor.getLastCommitHash
    rw [hH, hT, hc0]
    simp [hne]

/-- C7 witness: single-signature and zero-signature commits at concrete
inputs. -/
theorem CreateBlock_lastCommitHash_witness :
    (BlockExecutor.CreateBlock envBase exeF 1 commitOneSig [] stateW).SignedHeader.Header.LastCommitHash =
      envBase.commitHash
        { Round := 0, Signatures := [⟨2, [9], 100, [7]⟩] } ∧
    (BlockExecutor.CreateBlock envBase exeF 1 commitNoSig [] stateW).SignedHeader.Header.LastCommitHash =
      envBase.commitHash { Round := 0, Signatures := [] } := by
  constructor
  · exact (CreateBlock_lastCommitHash envBase exeF 1 commitOneSig [] stateW
      { Round := 0, Signatures := [⟨2, [], 1, [7]⟩] } rfl).1 ⟨2, [], 1, [7]⟩ [] rfl rfl
  · exact (CreateBlock_lastCommitHash envBase exeF 1 commitNoSig [] stateW
      { Round := 0, Signatures := [] } rfl).2 (by decide)

/-- C8: a successful `Commit` performs, inside the exclusive mempool lock,
flush, application `Commit`, `GetAppHash`, and mempool `Update` with the
block height, its transactions, the DeliverTx results and the
max-bytes/max-gas checks, in that order; it writes the resulting app hash
into the state value, returns the app hash and the retain height, and the
event-publication outcome is only recorded, never surfaced as an error
(note `env.publishEvents` is unconstrained here). -/
theorem Commit_success (env : Env) (state : State) (block : Block)
    (resp : LegacyABCIResponses) (retain : Nat) (hsh : Bytes)
    (hfl : env.flushAppConn = .ok ())
    (hac : env.appCommit = .ok retain)
    (hga : env.commitGetAppHash = .ok hsh)
    (hmu : env.mempoolUpdate block.SignedHeader.Header.BaseHeader.Height
      (fromRollkitTxs block.Data.Txs) resp.DeliverTxs
      state.ConsensusParams.Block.MaxBytes state.ConsensusParams.Block.MaxGas = .ok ()) :
    (BlockExecutor.Commit env state block resp).err = none ∧
    (BlockExecutor.Commit env state block resp).appHash = hsh ∧
    (BlockExecutor.Commit env state block resp).retainHeight = retain ∧
    (BlockExecutor.Commit env state block resp).stateAfter =
      { state with AppHash := hsh } ∧
    (BlockExecutor.Commit env state block resp).publishLogged =
      env.publishEvents resp block { state with AppHash := hsh } ∧
    (BlockExecutor.Commit env state block resp).ops =
      [.lock, .flushAppConn, .appCommit, .getAppHash,
       .mempoolUpdate block.SignedHeader.Header.BaseHeader.Height
         (fromRollkitTxs block.Data.Txs) resp.DeliverTxs
         state.ConsensusParams.Block.MaxBytes state.ConsensusParams.Block.MaxGas,
       .unlock] := by
  have hcommit : BlockExecutor.commit env state block resp.DeliverTxs =
      ((hsh, retain, none),
       [.lock, .flushAppConn, .appCommit, .getAppHash,
        .mempoolUpdate block.SignedHeader.Header.BaseHeader.Height
          (fromRollkitTxs block.Data.Txs) resp.DeliverTxs
          state.ConsensusParams.Block.MaxBytes state.ConsensusParams.Block.MaxGas,
        .unlock]) := by
    unfold BlockExecutor.commit
    simp only [hfl, hac, hga, hmu]
    rfl
  unfold BlockExecutor.Commit
  rw [hcommit]
  exact ⟨rfl, rfl, rfl, rfl, rfl, rfl⟩

/-- C8 witness: the success path at a concrete environment. -/
theorem Commit_success_witness :
    (BlockExecutor.Commit envBase stateW blockW respW).err = none ∧
    (BlockExecutor.Commit envBase stateW blockW respW).appHash = [170] ∧
    (BlockExecutor.Commit envBase stateW blockW respW).retainHeight = 11 ∧
    (BlockExecutor.Commit envBase stateW blockW respW).ops =
      [.lock, .flushAppConn, .appCommit, .getAppHash,
       .mempoolUpdate 1 [[5]] [none] 100 1000, .unlock] := by
  have h := Commit_success envBase stateW blockW respW 11 [170] rfl rfl rfl rfl
  exact ⟨h.1, h.2.1, h.2.2.1, h.2.2.2.2.2⟩

/-- C10: `ApplyBlock` failures in validate, execute, state serialization
(`ToProto`), or `updateState` return the zero value of `State` alongside
the error; only a validator-update sanity failure or a validator-update
translation failure returns the input state.  (The input `State` is never
mutated: `State` is passed by value and the embedding is pure.) -/
theorem ApplyBlock_error_state_paths (env : Env) (e : Executor) (state : State)
    (block : Block) :
    (∀ err, BlockExecutor.validate env state block = some err →
      BlockExecutor.ApplyBlock env e state block = (State.zero, none, some err)) ∧
    (∀ err, BlockExecutor.validate env state block = none →
      (BlockExecutor.execute env e state block).1 = .error err →
      BlockExecutor.ApplyBlock env e state block = (State.zero, none, some err)) ∧
    (∀ err resp blockOut, BlockExecutor.validate env state block = none →
      (BlockExecutor.execute env e state block).1 = .ok (resp, blockOut) →
      env.toProtoErr state = some err →
      BlockExecutor.ApplyBlock env e state block = (State.zero, none, some err)) ∧
    (∀ err resp blockOut, BlockExecutor.validate env state block = none →
      (BlockExecutor.execute env e state block).1 = .ok (resp, blockOut) →
      env.toProtoErr state = none →
      BlockExecutor.validateValidatorUpdates env resp.EndBlock.ValidatorUpdates
        state.ConsensusParams.Validator = some err →
      BlockExecutor.ApplyBlock env e state block =
        (state, none, some (.inValidatorUpdates err))) ∧
    (∀ err resp blockOut, BlockExecutor.validate env state block = none →
      (BlockExecutor.execute env e state block).1 = .ok (resp, blockOut) →
      env.toProtoErr state = none →
      BlockExecutor.validateValidatorUpdates env resp.EndBlock.ValidatorUpdates
        state.ConsensusParams.Validator = none →
      env.pb2tmValidatorUpdates resp.EndBlock.ValidatorUpdates = .error err →
      BlockExecutor.ApplyBlock env e state block = (state, none, some err)) ∧
    (∀ err resp blockOut vs s', BlockExecutor.validate env state block = none →
      (BlockExecutor.execute env e state block).1 = .ok (resp, blockOut) →
      env.toProtoErr state = none →
      BlockExecutor.validateValidatorUpdates env resp.EndBlock.ValidatorUpdates
        state.ConsensusParams.Validator = none →
      env.pb2tmValidatorUpdates resp.EndBlock.ValidatorUpdates = .ok vs →
      BlockExecutor.updateState env state block resp vs = (s', some err) →
      BlockExecutor.ApplyBlock env e state block = (State.zero, none, some err)) := by
  refine ⟨?_, ?_, ?_, ?_, ?_, ?_⟩
  · intro err hv
    simp only [BlockExecutor.ApplyBlock, hv]
  · intro err hv hex
    simp only [BlockExecutor.ApplyBlock, hv, hex]
  · intro err resp blockOut hv hex hsp
    simp only [BlockExecutor.ApplyBlock, hv, hex, hsp]
  · intro err resp blockOut hv hex hsp hvv
    simp only [BlockExecutor.ApplyBlock, hv, hex, hsp, hvv]
  · intro err resp blockOut hv hex hsp hvv hpb
    simp only [BlockExecutor.ApplyBlock, hv, hex, hsp, hvv, hpb]
  · intro err resp blockOut vs s' hv hex hsp hvv hpb hup
    simp only [BlockExecutor.ApplyBlock, hv, hex, hsp, hvv, hpb, hup]

/-- C10 witness: a validate failure at a concrete input returns the zero
state and the error. -/
theorem ApplyBlock_error_state_paths_witness :
    BlockExecutor.ApplyBlock envBase exeF stateW blockBad =
      (State.zero, none, some .appHashMismatch) :=
  (ApplyBlock_error_state_paths envBase exeF stateW blockBad).1 .appHashMismatch (by decide)

/-- C5: if the number of TxResults in the FinalizeBlock response differs
from the number of transactions in the block's `Data.Txs`, `execute`
fails with the length-mismatch error, and `ApplyBlock` does not advance
the state — it returns the zero state together with an error. -/
theorem execute_txResults_length_mismatch (env : Env) (e : Executor) (state : State)
    (block : Block) (ci : CommitInfo) (fresp : ResponseFinalizeBlock)
    (hpre : e.fraudProofsEnabled = true →
      BlockExecutor.isrLenCheck e.fraudProofsEnabled block = none ∧
      ∃ h0, env.getAppHash 0 = .ok h0)
    (hhdr : env.toABCIHeaderErr block.SignedHeader.Header = none)
    (hci : BlockExecutor.buildLastCommitInfo env block state.Validators
      state.InitialHeight = some ci)
    (hblk : env.toABCIBlockErr block = none)
    (hfin : env.finalizeBlock (BlockExecutor.finalizeRequestOf env block ci) = .ok fresp)
    (hne : fresp.TxResults.length ≠ block.Data.Txs.length) :
    (BlockExecutor.execute env e state block).1 =
      .error (.txResultsLengthMismatch block.Data.Txs.length fresp.TxResults.length) ∧
    (BlockExecutor.ApplyBlock env e state block).1 = State.zero ∧
    (BlockExecutor.ApplyBlock env e state block).2.2.isSome = true := by
  have hlen : (abciBlockOf block).Txs.length ≠ fresp.TxResults.length := fun h =>
    hne (h.symm)
  have hexec : (BlockExecutor.execute env e state block).1 =
      .error (.txResultsLengthMismatch block.Data.Txs.length fresp.TxResults.length) := by
    cases hen : e.fraudProofsEnabled with
    | false =>
      have hlc : BlockExecutor.isrLenCheck false block = none := rfl
      simp only [BlockExecutor.execute, hen, hlc, BlockExecutor.preCapture,
        Bool.false_eq_true, if_false, ToABCIHeaderPB, hhdr, hci, ToABCIBlock,
        hblk, hfin, if_pos hlen]
    | true =>
      obtain ⟨hlc, h0, hh0⟩ := hpre hen
      rw [hen] at hlc
      simp only [BlockExecutor.execute, hen, hlc, BlockExecutor.preCapture, reduceIte,
        hh0, ToABCIHeaderPB, hhdr, hci, ToABCIBlock, hblk, hfin, if_pos hlen]
  refine ⟨hexec, ?_⟩
  cases hv : BlockExecutor.validate env state block with
  | some err =>
    rw [(ApplyBlock_error_state_paths env e state block).1 err hv]
    exact ⟨rfl, rfl⟩
  | none =>
    rw [(ApplyBlock_error_state_paths env e state block).2.1 _ hv hexec]
    exact ⟨rfl, rfl⟩

/-- C5 witness: a response with zero tx results against a one-transaction
block. -/
theorem execute_txResults_length_mismatch_witness :
    (BlockExecutor.execute envLenBad exeF stateW blockW).1 =
      .error (.txResultsLengthMismatch 1 0) ∧
    (BlockExecutor.ApplyBlock envLenBad exeF stateW blockW).1 = State.zero ∧
    (BlockExecutor.ApplyBlock envLenBad exeF stateW blockW).2.2.isSome = true := by
  have h := execute_txResults_length_mismatch envLenBad exeF stateW blockW ⟨0, []⟩
    ⟨[], [], none, [], []⟩ (fun hc => absurd hc (by decide)) rfl rfl rfl rfl (by decide)
  exact h

/-- C4: with fraud proofs enabled and a nil supplied ISR list on entry, a
successful `execute` writes the captured ISR vector back into the
returned block's `IntermediateStateRoots.RawRootsList`, and that vector
has length `len(Txs) + 3` (one root before BeginBlock, one after
BeginBlock, one after each transaction, one after EndBlock). -/
theorem execute_isr_writeback_length (env : Env) (e : Executor) (state : State)
    (block : Block) (resp : LegacyABCIResponses) (blockOut : Block)
    (hen : e.fraudProofsEnabled = true)
    (hnil : block.Data.IntermediateStateRoots.RawRootsList = none)
    (hok : (BlockExecutor.execute env e state block).1 = .ok (resp, blockOut)) :
    blockOut.Data.IntermediateStateRoots.RawRootsList =
      some (BlockExecutor.execute env e state block).2.isrs ∧
    (BlockExecutor.execute env e state block).2.isrs.length =
      block.Data.Txs.length + 3 := by
  rcases hE : BlockExecutor.execute env e state block with ⟨res, tr⟩
  rw [hE] at hok
  unfold BlockExecutor.execute at hE
  split at hE
  · rename_i err heq
    rw [hen] at heq
    simp [BlockExecutor.isrLenCheck, hnil] at heq
  · split at hE
    · cases hE; simp at hok
    · rename_i st1 heq
      rw [hen] at heq
      obtain ⟨isr0, hh0, hst1⟩ := BlockExecutor.preCapture_ok_inv heq
      split at hE
      · cases hE; simp at hok
      · split at hE
        · cases hE; simp at hok
        · split at hE
          · cases hE; simp at hok
          · split at hE
            · cases hE; simp at hok
            · split at hE
              · cases hE; simp at hok
              · split at hE
                · cases hE; simp at hok
                · rename_i st2 heqB
                  rw [hen] at heqB
                  obtain ⟨isrB, _, hst2⟩ := BlockExecutor.genAndGossip_ok_inv heqB
                  split at hE
                  · cases hE; simp at hok
                  · rename_i reqs st3 heqL
                    rw [hen] at heqL
                    obtain ⟨_, _, _, hlen3, _, _⟩ := BlockExecutor.deliverTxLoop_ok_inv heqL
                    split at hE
                    · cases hE; simp at hok
                    · rename_i st4 heqE
                      rw [hen] at heqE
                      obtain ⟨isrE, _, hst4⟩ := BlockExecutor.genAndGossip_ok_inv heqE
                      cases hE
                      simp only [Except.ok.injEq, Prod.mk.injEq] at hok
                      obtain ⟨_, hblock⟩ := hok
                      rw [hen, hnil] at hblock
                      simp only [Option.isNone_none, Bool.and_true, if_true] at hblock
                      constructor
                      · rw [← hblock]
                      · subst hst4
                        subst hst2
                        subst hst1
                        simp only [List.length_append, List.length_cons,
                          List.length_nil] at hlen3 ⊢
                        simp at hlen3 ⊢
                        omega

/-- C4 witness: a one-transaction block with a nil ISR list under a
concrete enabled executor. -/
theorem execute_isr_writeback_length_witness :
    ({ blockW with Data := ⟨[[5]], ⟨some [[0], [1], [2], [3]]⟩⟩ } :
        Block).Data.IntermediateStateRoots.RawRootsList =
      some (BlockExecutor.execute envSeq exeT stateW blockW).2.isrs ∧
    (BlockExecutor.execute envSeq exeT stateW blockW).2.isrs.length =
      blockW.Data.Txs.length + 3 := by
  have h := execute_isr_writeback_length envSeq exeT stateW blockW
    ⟨[none], ⟨[]⟩, ⟨[], none, []⟩⟩
    { blockW with Data := ⟨[[5]], ⟨some [[0], [1], [2], [3]]⟩⟩ }
    rfl rfl rfl
  exact ⟨h.1, h.2⟩

/-- C9: with fraud proofs enabled and a supplied ISR list that passes the
up-front length check (`len(Txs) + 3`), every position `execute` reads
from the supplied list is within bounds — reads range only over positions
1 through `len(Txs) + 2` — whatever the collaborators return. -/
theorem execute_isr_accesses_in_bounds (env : Env) (e : Executor) (state : State)
    (block : Block) (l : List Bytes)
    (hen : e.fraudProofsEnabled = true)
    (hisr : block.Data.IntermediateStateRoots.RawRootsList = some l)
    (hlen : l.length = block.Data.Txs.length + 3) :
    IsrAccessesInBounds (BlockExecutor.execute env e state block).2 l.length := by
  have hlb : 3 ≤ l.length := by omega
  rcases hE : BlockExecutor.execute env e state block with ⟨res, tr⟩
  show IsrAccessesInBounds tr l.length
  unfold IsrAccessesInBounds
  unfold BlockExecutor.execute at hE
  split at hE
  · cases hE
    intro i hi
    simp [BlockExecutor.GossipSt.init] at hi
  · split at hE
    · rename_i st0 err heq
      cases hE
      obtain ⟨hacc, _⟩ := BlockExecutor.preCapture_inv heq
      intro i hi
      rw [hacc] at hi
      simp at hi
    · rename_i st1 heq
      rw [hen] at heq
      obtain ⟨isr0, hh0, hst1⟩ := BlockExecutor.preCapture_ok_inv heq
      have hst1a : st1.accesses = [] := by rw [hst1]; try rfl
      have hst1i : st1.isrIndex = 1 := by rw [hst1]; try rfl
      split at hE
      · cases hE
        intro i hi; rw [hst1a] at hi; simp at hi
      · split at hE
        · cases hE
          intro i hi; rw [hst1a] at hi; simp at hi
        · split at hE
          · cases hE
            intro i hi; rw [hst1a] at hi; simp at hi
          · split at hE
            · cases hE
              intro i hi; rw [hst1a] at hi; simp at hi
            · split at hE
              · cases hE
                intro i hi; rw [hst1a] at hi; simp at hi
              · split at hE
                · rename_i st2 err heqB
                  cases hE
                  rw [hen] at heqB
                  obtain ⟨m1, _, _, _⟩ := BlockExecutor.genAndGossip_step_bound heqB
                  intro i hi
                  rcases m1 i hi with hx | hx
                  · rw [hst1a] at hx; simp at hx
                  · constructor <;> omega
                · rename_i st2 heqB
                  rw [hen] at heqB
                  obtain ⟨m1, m2, m3, m4⟩ := BlockExecutor.genAndGossip_step_bound heqB
                  have hi2 : st2.isrIndex = 2 := by rw [m4 rfl, hst1i]
                  split at hE
                  · rename_i reqs st3 err heqL
                    cases hE
                    rw [hen] at heqL
                    obtain ⟨l1, l2, l3⟩ := BlockExecutor.deliverTxLoop_bound heqL
                    intro i hi
                    rcases l1 i hi with hx | hx
                    · rcases m1 i hx with hy | hy
                      · rw [hst1a] at hy; simp at hy
                      · constructor <;> omega
                    · constructor <;> omega
                  · rename_i reqs st3 heqL
                    rw [hen] at heqL
                    obtain ⟨l1, l2, l3⟩ := BlockExecutor.deliverTxLoop_bound heqL
                    split at hE
                    · rename_i st4 err heqE
                      cases hE
                      rw [hen] at heqE
                      obtain ⟨n1, n2, n3, n4⟩ := BlockExecutor.genAndGossip_step_bound heqE
                      intro i hi
                      rcases n1 i hi with hx | hx
                      · rcases l1 i hx with hy | hy
                        · rcases m1 i hy with hz | hz
                          · rw [hst1a] at hz; simp at hz
                          · constructor <;> omega
                        · constructor <;> omega
                      · constructor <;> omega
                    · rename_i st4 heqE
                      cases hE
                      rw [hen] at heqE
                      obtain ⟨n1, n2, n3, n4⟩ := BlockExecutor.genAndGossip_step_bound heqE
                      intro i hi
                      rcases n1 i hi with hx | hx
                      · rcases l1 i hx with hy | hy
                        · rcases m1 i hy with hz | hz
                          · rw [hst1a] at hz; simp at hz
                          · constructor <;> omega
                        · constructor <;> omega
                      · constructor <;> omega

/-- C1: with fraud proofs enabled and a non-nil supplied ISR list of the
expected length, when the generated app hashes first diverge from the
supplied list at compared position `j` (`1 ≤ j ≤ len(Txs) + 2`),
`execute` issues exactly one `GenerateFraudProof` request carrying the
`BeginBlockRequest`, the prefix of `DeliverTxRequests` executed so far
(none at the post-BeginBlock point, the first `j - 1` transactions
otherwise), and the `EndBlockRequest` only when the mismatch is at the
post-EndBlock point; it broadcasts the returned proof via the fraud-proof
service and fails with `Err.fraudProofGenerated`. -/
theorem execute_fraud_trigger (env : Env) (e : Executor) (state : State)
    (block : Block) (l : List Bytes) (g : Nat → Bytes) (j : Nat) (ci : CommitInfo)
    (fresp : ResponseFinalizeBlock) (fp : FraudProof)
    (hen : e.fraudProofsEnabled = true)
    (hisr : block.Data.IntermediateStateRoots.RawRootsList = some l)
    (hlen : l.length = block.Data.Txs.length + 3)
    (hhdr : env.toABCIHeaderErr block.SignedHeader.Header = none)
    (hci : BlockExecutor.buildLastCommitInfo env block state.Validators
      state.InitialHeight = some ci)
    (hblk : env.toABCIBlockErr block = none)
    (hfin : env.finalizeBlock (BlockExecutor.finalizeRequestOf env block ci) = .ok fresp)
    (hfl : fresp.TxResults.length = block.Data.Txs.length)
    (hj1 : 1 ≤ j) (hj2 : j ≤ block.Data.Txs.length + 2)
    (hg : ∀ k, k < j + 1 → env.getAppHash k = .ok (g k))
    (hmatch : ∀ k, k < j → 1 ≤ k → g k = l.getD k [])
    (hmis : g j ≠ l.getD j [])
    (hfp : env.appGenerateFraudProof
      (BlockExecutor.mkGenerateFraudProofRequest
        (BlockExecutor.beginBlockRequestOf env e state block)
        (if j = 1 then none
         else some ((block.Data.Txs.take (j - 1)).map RequestDeliverTx.mk))
        (if j = block.Data.Txs.length + 2 then
           some ⟨block.SignedHeader.Header.BaseHeader.Height⟩
         else none)) = .ok (some fp))
    (hbc : env.broadcast fp = .ok ()) :
    (BlockExecutor.execute env e state block).1 = .error .fraudProofGenerated ∧
    (BlockExecutor.execute env e state block).2.fpRequests =
      [BlockExecutor.mkGenerateFraudProofRequest
        (BlockExecutor.beginBlockRequestOf env e state block)
        (if j = 1 then none
         else some ((block.Data.Txs.take (j - 1)).map RequestDeliverTx.mk))
        (if j = block.Data.Txs.length + 2 then
           some ⟨block.SignedHeader.Header.BaseHeader.Height⟩
         else none)] ∧
    (BlockExecutor.execute env e state block).2.broadcasts = [fp] := by
  have hlc : BlockExecutor.isrLenCheck e.fraudProofsEnabled block = none := by
    rw [hen]
    simp [BlockExecutor.isrLenCheck, hisr, hlen]
  have hpre : BlockExecutor.preCapture env e.fraudProofsEnabled =
      ({ BlockExecutor.GossipSt.init with isrs := [g 0], hashCalls := 1, isrIndex := 1 },
       none) := by
    rw [hen]
    exact BlockExecutor.preCapture_ok_eq env (g 0) (hg 0 (by omega))
  rcases hE : BlockExecutor.execute env e state block with ⟨res, tr⟩
  unfold BlockExecutor.execute at hE
  split at hE
  · rename_i err heq
    rw [hlc] at heq
    exact Option.noConfusion heq
  split at hE
  · rename_i st0 err heq
    rw [hpre] at heq
    simp at heq
  rename_i st1 heq
  rw [hpre] at heq
  obtain ⟨hst1, _⟩ := Prod.mk.injEq .. |>.mp heq
  have h1hc : st1.hashCalls = 1 := by rw [← hst1]
  have h1idx : st1.isrIndex = 1 := by rw [← hst1]
  have h1fp : st1.fpRequests = [] := by rw [← hst1]; try rfl
  have h1bc : st1.broadcasts = [] := by rw [← hst1]; try rfl
  split at hE
  · rename_i err heq2
    simp [ToABCIHeaderPB, hhdr] at heq2
  split at hE
  · rename_i heq2
    rw [hci] at heq2
    exact Option.noConfusion heq2
  rename_i ci' heq2
  rw [hci] at heq2
  obtain hcic := Option.some.injEq .. |>.mp heq2
  subst hcic
  split at hE
  · rename_i err heq3
    simp [ToABCIBlock, hblk] at heq3
  rename_i abciBlock heq3
  have habci : abciBlockOf block = abciBlock := by
    simp [ToABCIBlock, hblk] at heq3
    exact heq3
  subst habci
  split at hE
  · rename_i err heq4
    rw [hfin] at heq4
    exact Except.noConfusion heq4
  rename_i fresp' heq4
  rw [hfin] at heq4
  obtain hfr := Except.ok.injEq .. |>.mp heq4
  subst hfr
  split at hE
  · rename_i hcond
    exact absurd
      (show (abciBlockOf block).Txs.length = fresp.TxResults.length by
        simp [abciBlockOf, hfl])
      hcond
  split at hE
  · -- the post-BeginBlock capture errored: only the j = 1 trigger does that here
    rename_i st2 err heqB
    rw [hen, hisr] at heqB
    by_cases hj1eq : j = 1
    · subst hj1eq
      have hstep1 := BlockExecutor.genAndGossip_trigger_eq env (some l)
        (BlockExecutor.beginBlockRequestOf env e state block) none none st1 (g 1) fp
        (by rw [h1hc]; exact hg 1 (by omega))
        (by rw [h1idx]; exact BlockExecutor.trigger_true_of_ne (by omega) (Ne.symm hmis))
        (by simpa using hfp)
        hbc
      rw [hstep1] at heqB
      obtain ⟨hA, hB⟩ := Prod.mk.injEq .. |>.mp heqB
      obtain hBe := Option.some.injEq .. |>.mp hB
      cases hE
      subst hBe
      refine ⟨rfl, ?_, ?_⟩
      · rw [← hA]
        simp [h1fp, show ¬(1 = block.Data.Txs.length + 2) by omega]
      · rw [← hA]
        simp [h1bc]
    · have hclean1 := BlockExecutor.genAndGossip_clean_eq env (some l)
        (BlockExecutor.beginBlockRequestOf env e state block) none none st1 (g 1)
        (by rw [h1hc]; exact hg 1 (by omega))
        (by
          rw [h1idx]
          exact BlockExecutor.trigger_false_of_eq (by omega)
            ((hmatch 1 (by omega) (by omega)).symm))
      rw [hclean1] at heqB
      simp at heqB
  -- post-BeginBlock capture clean: j ≥ 2
  rename_i st2 heqB
  rw [hen, hisr] at heqB
  have hj1eq : ¬ j = 1 := by
    intro hj
    subst hj
    have hstep1 := BlockExecutor.genAndGossip_trigger_eq env (some l)
      (BlockExecutor.beginBlockRequestOf env e state block) none none st1 (g 1) fp
      (by rw [h1hc]; exact hg 1 (by omega))
      (by rw [h1idx]; exact BlockExecutor.trigger_true_of_ne (by omega) (Ne.symm hmis))
      (by simpa using hfp)
      hbc
    rw [hstep1] at heqB
    simp at heqB
  have hclean1 := BlockExecutor.genAndGossip_clean_eq env (some l)
    (BlockExecutor.beginBlockRequestOf env e state block) none none st1 (g 1)
    (by rw [h1hc]; exact hg 1 (by omega))
    (by
      rw [h1idx]
      exact BlockExecutor.trigger_false_of_eq (by omega)
        ((hmatch 1 (by omega) (by omega)).symm))
  rw [hclean1] at heqB
  obtain ⟨hst2, _⟩ := Prod.mk.injEq .. |>.mp heqB
  have h2hc : st2.hashCalls = 2 := by rw [← hst2]; simp [h1hc]
  have h2idx : st2.isrIndex = 2 := by rw [← hst2]; simp [h1idx]
  have h2fp : st2.fpRequests = [] := by rw [← hst2]; simp [h1fp]
  have h2bc : st2.broadcasts = [] := by rw [← hst2]; simp [h1bc]
  have h2sync : st2.isrIndex = st2.hashCalls := by rw [h2hc, h2idx]
  split at hE
  · -- the loop errored: only the in-loop trigger (2 ≤ j ≤ len + 1) does that here
    rename_i fst st3 err heqL
    rw [hen, hisr] at heqL
    by_cases hjend : j = block.Data.Txs.length + 2
    · obtain ⟨st3c, hrunC, _, _, _, _⟩ := BlockExecutor.deliverTxLoop_clean_eq env (some l)
        (BlockExecutor.beginBlockRequestOf env e state block) g block.Data.Txs [] st2
        h2sync
        (by intro t ht; rw [h2hc]; exact hg (2 + t) (by omega))
        (by
          intro t ht
          rw [h2hc]
          exact BlockExecutor.trigger_false_of_eq (by omega)
            ((hmatch (2 + t) (by omega) (by omega)).symm))
      rw [hrunC] at heqL
      simp at heqL
    · have htk : j - 2 + 1 = j - 1 := by omega
      obtain ⟨reqs', st', hrunT, hfpr, hbcast⟩ := BlockExecutor.deliverTxLoop_trigger_eq
        env (some l) (BlockExecutor.beginBlockRequestOf env e state block) g fp
        block.Data.Txs (j - 2) [] st2 h2sync (by omega)
        (by intro t ht; rw [h2hc]; exact hg (2 + t) (by omega))
        (by
          intro t ht
          rw [h2hc]
          exact BlockExecutor.trigger_false_of_eq (by omega)
            ((hmatch (2 + t) (by omega) (by omega)).symm))
        (by
          rw [h2hc]
          have h2j : 2 + (j - 2) = j := by omega
          rw [h2j]
          exact BlockExecutor.trigger_true_of_ne (by omega) (Ne.symm hmis))
        (by
          rw [htk]
          simp only [List.nil_append]
          rw [if_neg hj1eq, if_neg hjend] at hfp
          exact hfp)
        hbc
      rw [hrunT] at heqL
      obtain ⟨hA, hB, hC⟩ := by
        simpa only [Prod.mk.injEq] using heqL
      obtain hBe := Option.some.injEq .. |>.mp hC
      cases hE
      subst hBe
      refine ⟨rfl, ?_, ?_⟩
      · rw [← hB, hfpr, h2fp]
        rw [if_neg hj1eq, if_neg hjend]
        simp [htk]
      · rw [← hB, hbcast, h2bc]
        rfl
  -- loop clean: j = len + 2
  rename_i reqs st3 heqL
  rw [hen, hisr] at heqL
  have hjend : j = block.Data.Txs.length + 2 := by
    by_contra hne
    have htk : j - 2 + 1 = j - 1 := by omega
    obtain ⟨reqs', st', hrunT, _, _⟩ := BlockExecutor.deliverTxLoop_trigger_eq
      env (some l) (BlockExecutor.beginBlockRequestOf env e state block) g fp
      block.Data.Txs (j - 2) [] st2 h2sync (by omega)
      (by intro t ht; rw [h2hc]; exact hg (2 + t) (by omega))
      (by
        intro t ht
        rw [h2hc]
        exact BlockExecutor.trigger_false_of_eq (by omega)
          ((hmatch (2 + t) (by omega) (by omega)).symm))
      (by
        rw [h2hc]
        have h2j : 2 + (j - 2) = j := by omega
        rw [h2j]
        exact BlockExecutor.trigger_true_of_ne (by omega) (Ne.symm hmis))
      (by
        rw [htk]
        simp only [List.nil_append]
        rw [if_neg hj1eq, if_neg hne] at hfp
        exact hfp)
      hbc
    rw [hrunT] at heqL
    simp at heqL
  obtain ⟨st3c, hrunC, hI3, hH3, hFP3, hBC3⟩ := BlockExecutor.deliverTxLoop_clean_eq
    env (some l) (BlockExecutor.beginBlockRequestOf env e state block) g
    block.Data.Txs [] st2 h2sync
    (by intro t ht; rw [h2hc]; exact hg (2 + t) (by omega))
    (by
      intro t ht
      rw [h2hc]
      exact BlockExecutor.trigger_false_of_eq (by omega)
        ((hmatch (2 + t) (by omega) (by omega)).symm))
  rw [hrunC] at heqL
  obtain ⟨hreqs, hst3, _⟩ := by
    simpa only [Prod.mk.injEq] using heqL
  have h3hc : st3.hashCalls = 2 + block.Data.Txs.length := by
    rw [← hst3, hH3, h2hc]
  have h3idx : st3.isrIndex = 2 + block.Data.Txs.length := by
    rw [← hst3, hI3, h2idx]
  have h3fp : st3.fpRequests = [] := by rw [← hst3, hFP3, h2fp]
  have h3bc : st3.broadcasts = [] := by rw [← hst3, hBC3, h2bc]
  have hstepE := BlockExecutor.genAndGossip_trigger_eq env (some l)
    (BlockExecutor.beginBlockRequestOf env e state block) (some reqs)
    (some ⟨block.SignedHeader.Header.BaseHeader.Height⟩) st3 (g j) fp
    (by
      rw [h3hc, show 2 + block.Data.Txs.length = j by omega]
      exact hg j (by omega))
    (by
      rw [h3idx, show 2 + block.Data.Txs.length = j by omega]
      exact BlockExecutor.trigger_true_of_ne (by omega) (Ne.symm hmis))
    (by
      rw [← hreqs]
      simp only [List.nil_append]
      rw [if_neg hj1eq, if_pos hjend] at hfp
      rw [show block.Data.Txs.take (j - 1) = block.Data.Txs from
        List.take_of_length_le (by omega)] at hfp
      exact hfp)
    hbc
  split at hE
  · rename_i st4 err heqE
    rw [hen, hisr] at heqE
    rw [hstepE] at heqE
    obtain ⟨hA, hB⟩ := Prod.mk.injEq .. |>.mp heqE
    obtain hBe := Option.some.injEq .. |>.mp hB
    cases hE
    subst hBe
    refine ⟨rfl, ?_, ?_⟩
    · rw [← hA]
      simp only []
      rw [h3fp]
      rw [if_neg hj1eq, if_pos hjend]
      rw [show block.Data.Txs.take (j - 1) = block.Data.Txs from
        List.take_of_length_le (by omega)]
      rw [← hreqs]
      simp
    · rw [← hA]
      simp only []
      rw [h3bc]
      rfl
  · rename_i st4 heqE
    rw [hen, hisr] at heqE
    rw [hstepE] at heqE
    simp at heqE

/-- C1 witness: spec scenario 5 — the supplied list diverges at position 2
(after the first DeliverTx); the fraud-proof request carries the
one-element DeliverTx prefix and no EndBlock request. -/
theorem execute_fraud_trigger_witness :
    (BlockExecutor.execute envSeq exeT stateW blockIsr).1 =
      .error .fraudProofGenerated ∧
    (BlockExecutor.execute envSeq exeT stateW blockIsr).2.fpRequests =
      [BlockExecutor.mkGenerateFraudProofRequest
        (BlockExecutor.beginBlockRequestOf envSeq exeT stateW blockIsr)
        (some [⟨[5]⟩]) none] ∧
    (BlockExecutor.execute envSeq exeT stateW blockIsr).2.broadcasts = [7] := by
  have h := execute_fraud_trigger envSeq exeT stateW blockIsr isrListW
    (fun k => [k]) 2 ⟨0, []⟩ ⟨[⟨0, []⟩], [], none, [], []⟩ 7
    rfl rfl (by decide) rfl rfl rfl rfl (by decide) (by decide) (by decide)
    (fun k _ => rfl) (by decide) (by decide) rfl rfl
  simpa using h

/-- C9 witness: a supplied list of the expected length at a concrete
enabled executor; all recorded reads lie in `[1, 4)`. -/
theorem execute_isr_accesses_in_bounds_witness :
    IsrAccessesInBounds (BlockExecutor.execute envSeq exeT stateW blockIsrOk).2 4 := by
  have h := execute_isr_accesses_in_bounds envSeq exeT stateW blockIsrOk isrListOk
    rfl rfl (by decide)
  exact h

end Rollkit
